import Mathlib

/-!
Shallow embedding of the `air_ecmap` core (token/tuple algebra, validation,
Steps 1-4, mapping classification, orchestrators) and proofs about its
behaviour.

Embedding conventions:
* Python dicts with string keys are association lists in insertion order;
  `d[k]` raises `KeyError`, embedded in an explicit `Except` monad.
* Python exceptions (`ValidationError`, `KeyError`, `CycleDetectedError`)
  are the constructors of `PyErr`.
* `isinstance` checks that are vacuous in a typed embedding are omitted;
  loops of `_ensure` calls over a list whose message only varies in the index
  are embedded as a single `ensure` of the corresponding bounded
  universal (same success/failure behaviour).
* Quote characters inside validation messages are dropped; only the text
  and non-emptiness of messages matter for the theorems below.
-/

namespace AirEcmap

/-- A context tuple: a Python dict from taxonomy keys to tokens, in insertion order. -/
abbrev Tup := List (String × String)

/-- The Python exception classes raised by the core. -/
inductive PyErr where
  | validation (msg : String)
  | keyError (key : String)
  | cycle
deriving DecidableEq

/-- Computation that may raise a Python exception. -/
abbrev Py (α : Type) := Except PyErr α

instance {ε α : Type} [DecidableEq ε] [DecidableEq α] : DecidableEq (Except ε α)
  | .ok a, .ok b =>
    if h : a = b then .isTrue (by rw [h]) else .isFalse (fun hh => h (Except.ok.inj hh))
  | .error a, .error b =>
    if h : a = b then .isTrue (by rw [h]) else .isFalse (fun hh => h (Except.error.inj hh))
  | .ok _, .error _ => .isFalse (fun hh => Except.noConfusion hh)
  | .error _, .ok _ => .isFalse (fun hh => Except.noConfusion hh)

/-- Python `d.get(k)` on a string-keyed association list. -/
def alGet {α : Type} : List (String × α) → String → Option α
  | [], _ => none
  | (k', v) :: rest, k => if k' = k then some v else alGet rest k

/-- Python `d[k]`: the value, or a `KeyError`. -/
def alGetE {α : Type} (m : List (String × α)) (k : String) : Py α :=
  match alGet m k with
  | some v => .ok v
  | none => .error (.keyError k)

/-- Python `d[k] = v`: replace the binding in place, or append a new one. -/
def alSet {α : Type} : List (String × α) → String → α → List (String × α)
  | [], k, v => [(k, v)]
  | (k', v') :: rest, k, v =>
    if k' = k then (k, v) :: rest else (k', v') :: alSet rest k v

/-- Python `k in d`. -/
def alHas {α : Type} (m : List (String × α)) (k : String) : Bool :=
  (alGet m k).isSome

/-- `_ensure(condition, message)`: raise `ValidationError` when the condition fails. -/
def ensure (c : Prop) [Decidable c] (msg : String) : Py Unit :=
  if c then .ok () else .error (.validation msg)

/-- `_norm`: identity when case-sensitive, lowercase otherwise. -/
def pnorm (token : String) (caseSensitive : Bool) : String :=
  if caseSensitive then token else token.toLower

/-- Character-level prefix test (`s.startswith(p)` on the char lists). -/
def hasPrefixChars : List Char → List Char → Bool
  | [], _ => true
  | _ :: _, [] => false
  | a :: as, b :: bs => a == b && hasPrefixChars as bs

/-- Python `s.startswith(p)`. -/
def str_startswith (s p : String) : Bool :=
  hasPrefixChars p.data s.data

/-- Left-to-right non-overlapping split on a non-empty separator; the fuel is a
strict upper bound on the input length, so the first branch is unreachable. -/
def splitOnGo (sep : List Char) : Nat → List Char → List Char → List (List Char)
  | 0, s, acc => [acc.reverse ++ s]
  | fuel + 1, s, acc =>
    match s with
    | [] => [acc.reverse]
    | c :: rest =>
      if hasPrefixChars sep s then
        acc.reverse :: splitOnGo sep fuel (s.drop sep.length) []
      else
        splitOnGo sep fuel rest (c :: acc)

/-- Python `s.split(sep)` (CPython semantics for a non-empty separator). -/
def str_split (s sep : String) : List String :=
  if sep = "" then [s]
  else (splitOnGo sep.data (s.data.length + 1) s.data []).map (fun cs => ⟨cs⟩)

/-- Code-point lexicographic comparison on char lists (Python string `<=`). -/
def charsLe : List Char → List Char → Bool
  | [], _ => true
  | _ :: _, [] => false
  | a :: as, b :: bs =>
    if a.toNat = b.toNat then charsLe as bs else decide (a.toNat < b.toNat)

/-- Python string comparison `a <= b`. -/
def strLe (a b : String) : Bool :=
  charsLe a.data b.data

/-- `_is_ancestor`: equal after normalization, or a path-prefix plus delimiter. -/
def is_ancestor (ancestor descendant delimiter : String) (caseSensitive : Bool) : Bool :=
  let a := pnorm ancestor caseSensitive
  let d := pnorm descendant caseSensitive
  d == a || str_startswith d (a ++ delimiter)

/-- `_intersect_token`: meet of two hierarchical tokens for one key. -/
def intersect_token (left right placeholder delimiter : String) (caseSensitive : Bool) :
    Option String :=
  if pnorm left caseSensitive == pnorm placeholder caseSensitive then some right
  else if pnorm right caseSensitive == pnorm placeholder caseSensitive then some left
  else if pnorm left caseSensitive == pnorm right caseSensitive then some left
  else if is_ancestor left right delimiter caseSensitive then some right
  else if is_ancestor right left delimiter caseSensitive then some left
  else none

/-- First-seen-order deduplication with an accumulated `seen` set. -/
def dedup_first {α : Type} [DecidableEq α] (seen : List α) : List α → List α
  | [] => []
  | x :: xs => if x ∈ seen then dedup_first seen xs else x :: dedup_first (x :: seen) xs

/-- `_dedup_exact_ordered`. -/
def dedup_exact_ordered (tuples : List Tup) : List Tup :=
  dedup_first [] tuples

/-- Python `sorted` on a list of strings (stable ascending sort). -/
def sortStrings (l : List String) : List String :=
  l.insertionSort (fun a b => strLe a b = true)

/-- The dict `{x.id: x}` built from a list: lookup returns the last element with the id. -/
def dict_by_id {α : Type} (l : List α) (idOf : α → String) (k : String) : Option α :=
  l.reverse.find? (fun x => idOf x == k)

/-- Taxonomy (`rules` flattened into the record; defaults as in the code). -/
structure Taxonomy where
  keys : List String
  placeholders : Tup
  categories : List (String × List String)
  defaults : Tup
  delimiter : String := "."
  caseSensitive : Bool := true
deriving DecidableEq

/-- Error envelope: a dict with exactly the keys `error`, `reason`, `details`. -/
structure Envelope where
  error : String
  reason : String
  details : Tup
deriving DecidableEq

/-- The closed set of allowed `error` values. -/
def allowedErrors : List String := ["Validation", "Step1", "Step2", "Step3", "Step4"]

/-- `build_error_envelope`: validates the error class and reason, then builds the dict. -/
def build_error_envelope (error reason : String) (details : Tup) : Py Envelope := do
  ensure (error ∈ allowedErrors) "error type is not allowed"
  ensure (reason ≠ "") "reason must be non-empty string"
  pure ⟨error, reason, details⟩

structure Policy where
  policyKeys : List String
  legalTuples : List Tup
deriving DecidableEq

structure Abie where
  id : String
  childrenBBIE : List String := []
  childrenASBIE : List String := []
deriving DecidableEq

structure Asbie where
  id : String
  sourceABIE : String
  targetABIE : String
deriving DecidableEq

structure Bbie where
  id : String
  ownerABIE : String
deriving DecidableEq

structure ComponentGraph where
  rootABIE : String
  abies : List Abie
  asbies : List Asbie
  bbies : List Bbie
  maxFixpointRounds : Option Int := none
deriving DecidableEq

/-- A `{componentId, tuples}` record (assignments and prefiltered entries). -/
structure CompTuples where
  componentId : String
  tuples : List Tup
deriving DecidableEq

structure Iuc where
  id : String
  tuples : List Tup
deriving DecidableEq

/-- Ancestor-closure of a category list under the delimiter (the inner loops of
`validate_taxonomy`: every proper prefix of each category is a category). -/
def ancestorClosed (cats : List String) (delimiter : String) (cs : Bool) : Prop :=
  ∀ tok ∈ cats, ∀ i < (str_split tok delimiter).length,
    1 ≤ i → pnorm (delimiter.intercalate ((str_split tok delimiter).take i)) cs ∈
      cats.map (pnorm · cs)

instance (cats : List String) (delimiter : String) (cs : Bool) :
    Decidable (ancestorClosed cats delimiter cs) := by
  unfold ancestorClosed; infer_instance

/-- Per-key loop of `validate_taxonomy`. -/
def validate_taxonomy_keys (t : Taxonomy) : List String → Py Unit
  | [] => .ok ()
  | key :: rest => do
    let ph ← alGetE t.placeholders key
    ensure (ph ≠ "") "taxonomy.placeholders value must be non-empty string"
    let cats ← alGetE t.categories key
    ensure ((cats.map (pnorm · t.caseSensitive)).Nodup) "taxonomy.categories contains duplicates"
    ensure (pnorm ph t.caseSensitive ∉ cats.map (pnorm · t.caseSensitive))
      "Placeholders must not appear in taxonomy.categories"
    ensure (ancestorClosed cats t.delimiter t.caseSensitive)
      "taxonomy.categories must be ancestor-closed"
    validate_taxonomy_keys t rest

/-- Defaults loop of `validate_taxonomy`. -/
def validate_taxonomy_defaults (t : Taxonomy) : Tup → Py Unit
  | [] => .ok ()
  | (key, tok) :: rest => do
    let cats ← alGetE t.categories key
    ensure (pnorm tok t.caseSensitive ∈ cats.map (pnorm · t.caseSensitive))
      "taxonomy.defaults values must be concrete categories and not placeholders"
    let ph ← alGetE t.placeholders key
    ensure (pnorm tok t.caseSensitive ≠ pnorm ph t.caseSensitive)
      "Placeholders must not appear in taxonomy.defaults"
    validate_taxonomy_defaults t rest

/-- `validate_taxonomy`. -/
def validate_taxonomy (t : Taxonomy) : Py Unit := do
  ensure t.keys.Nodup "taxonomy.keys must be unique"
  ensure (t.delimiter ≠ "") "taxonomy.rules.delimiter must be non-empty string"
  ensure ((∀ k ∈ t.placeholders.map Prod.fst, k ∈ t.keys) ∧
      (∀ k ∈ t.keys, k ∈ t.placeholders.map Prod.fst))
    "taxonomy.placeholders must define one placeholder per taxonomy key"
  ensure ((∀ k ∈ t.categories.map Prod.fst, k ∈ t.keys) ∧
      (∀ k ∈ t.keys, k ∈ t.categories.map Prod.fst))
    "taxonomy.categories must define category list per taxonomy key"
  ensure (∀ k ∈ t.defaults.map Prod.fst, k ∈ t.keys)
    "taxonomy.defaults keys must be subset of taxonomy.keys"
  validate_taxonomy_keys t t.keys
  validate_taxonomy_defaults t t.defaults

/-- Item loop of `_validate_tuple_tokens`. -/
def validate_tuple_items (t : Taxonomy) (context : String) : Tup → Py Unit
  | [] => .ok ()
  | (key, token) :: rest => do
    let cats ← alGetE t.categories key
    let ph ← alGetE t.placeholders key
    ensure (pnorm token t.caseSensitive ∈ cats.map (pnorm · t.caseSensitive) ∨
        pnorm token t.caseSensitive = pnorm ph t.caseSensitive)
      (context ++ ": token is not a valid CATEGORY or PLACEHOLDER")
    validate_tuple_items t context rest

/-- `_validate_tuple_tokens`. -/
def validate_tuple_tokens (tup : Tup) (t : Taxonomy) (context : String) : Py Unit := do
  ensure (∀ k ∈ tup.map Prod.fst, k ∈ t.keys)
    (context ++ ": tuple keys must be subset of taxonomy.keys")
  validate_tuple_items t context tup

/-- Legal-tuple loop of `validate_policy`. -/
def validate_policy_tuples (t : Taxonomy) (required : List String) : List Tup → Py Unit
  | [] => .ok ()
  | tup :: rest => do
    validate_tuple_tokens tup t "policy.legalTuples"
    ensure (∀ k ∈ required, k ∈ tup.map Prod.fst)
      "policy.legalTuples entries must include all policyKeys"
    validate_policy_tuples t required rest

/-- `validate_policy`. -/
def validate_policy (p : Policy) (t : Taxonomy) : Py Unit := do
  validate_taxonomy t
  ensure p.policyKeys.Nodup "policy.policyKeys must be unique"
  ensure (∀ k ∈ p.policyKeys, k ∈ t.keys) "policyKeys must be subset of taxonomy.keys"
  validate_policy_tuples t p.policyKeys p.legalTuples

/-- `validate_component_graph`. -/
def validate_component_graph (g : ComponentGraph) : Py Unit := do
  ensure (g.rootABIE ≠ "") "componentGraph.rootABIE must be non-empty string"
  ensure (0 < g.maxFixpointRounds.getD 8)
    "componentGraph.rules.maxFixpointRounds must be positive integer"
  ensure (∀ a ∈ g.abies, a.id ≠ "") "componentGraph.abies id is required"
  ensure (∀ s ∈ g.asbies, s.id ≠ "") "componentGraph.asbies id is required"
  ensure (∀ b ∈ g.bbies, b.id ≠ "") "componentGraph.bbies id is required"
  ensure (g.abies.map Abie.id ++ g.asbies.map Asbie.id ++ g.bbies.map Bbie.id).Nodup
    "component graph IDs are globally unique"
  ensure (g.rootABIE ∈ g.abies.map Abie.id) "componentGraph.rootABIE must reference an ABIE id"
  ensure (∀ s ∈ g.asbies,
      s.sourceABIE ∈ g.abies.map Abie.id ∧ s.targetABIE ∈ g.abies.map Abie.id)
    "componentGraph.asbies sourceABIE and targetABIE must resolve to ABIE ids"
  ensure (∀ b ∈ g.bbies, b.ownerABIE ∈ g.abies.map Abie.id)
    "componentGraph.bbies ownerABIE must resolve to ABIE id"
  ensure (∀ a ∈ g.abies, (∀ c ∈ a.childrenASBIE, c ∈ g.asbies.map Asbie.id) ∧
      (∀ c ∈ a.childrenBBIE, c ∈ g.bbies.map Bbie.id))
    "componentGraph.abies children must resolve to component ids"

/-- Tuple-list loop shared by assignments and IUC validation. -/
def validate_tuples_list (t : Taxonomy) (context : String) : List Tup → Py Unit
  | [] => .ok ()
  | tup :: rest => do
    validate_tuple_tokens tup t context
    validate_tuples_list t context rest

/-- Entry loop of `validate_assignments`. -/
def validate_assignments_items (t : Taxonomy) (allowed : List String) :
    List CompTuples → Py Unit
  | [] => .ok ()
  | item :: rest => do
    ensure (item.componentId ≠ "") "assignedBusinessContext componentId is required"
    ensure (item.componentId ∈ allowed)
      "assignedBusinessContext componentId must resolve to BBIE/ASBIE id"
    validate_tuples_list t "assignedBusinessContext" item.tuples
    validate_assignments_items t allowed rest

/-- `validate_assignments`. -/
def validate_assignments (assignments : List CompTuples) (t : Taxonomy)
    (g : ComponentGraph) : Py Unit := do
  validate_taxonomy t
  validate_component_graph g
  validate_assignments_items t (g.asbies.map Asbie.id ++ g.bbies.map Bbie.id) assignments

/-- Entry loop of `validate_iucs`. -/
def validate_iucs_items (t : Taxonomy) : List Iuc → Py Unit
  | [] => .ok ()
  | iuc :: rest => do
    ensure (iuc.id ≠ "") "iucs id is required"
    validate_tuples_list t "iucs" iuc.tuples
    validate_iucs_items t rest

/-- `validate_iucs`. -/
def validate_iucs (iucs : List Iuc) (t : Taxonomy) : Py Unit := do
  validate_taxonomy t
  validate_iucs_items t iucs
  ensure ((iucs.map Iuc.id).Nodup) "iucs ids must be unique"

structure ProfilePair where
  sourceProfileId : String
  targetProfileId : String
deriving DecidableEq

structure CatEntry where
  anchor : String
  relevantAxes : Option (List String) := none
deriving DecidableEq

structure SchemaPaths where
  source : List (String × String) := []
  target : List (String × String) := []
deriving DecidableEq

structure MappingConfig where
  profilePairs : List ProfilePair
  bie_catalog : List (String × CatEntry)
  schemaPaths : SchemaPaths
deriving DecidableEq

/-- `normalize_mapping_config`: fill a missing `relevantAxes` with `[]`. -/
def normalize_mapping_config (cfg : MappingConfig) : MappingConfig :=
  { cfg with bie_catalog :=
      (cfg.bie_catalog.map
        (fun p => (p.1, { p.2 with relevantAxes := some (p.2.relevantAxes.getD []) }))) }

/-- `validate_mapping_config`. -/
def validate_mapping_config (cfg0 : MappingConfig) : Py Unit := do
  let cfg := normalize_mapping_config cfg0
  ensure (∀ p ∈ cfg.profilePairs, p.sourceProfileId ≠ "" ∧ p.targetProfileId ≠ "")
    "mappingConfig.profilePairs ids are required"
  ensure (∀ e ∈ cfg.bie_catalog, e.1 ≠ "" ∧ e.2.anchor ≠ "" ∧ (e.2.relevantAxes.getD []).Nodup)
    "mappingConfig.bie_catalog entries must have anchor and unique relevantAxes"
  ensure (∀ e ∈ cfg.schemaPaths.source, e.1 ≠ "" ∧ e.2 ≠ "")
    "mappingConfig.schemaPaths.source paths must be non-empty"
  ensure (∀ e ∈ cfg.schemaPaths.target, e.1 ≠ "" ∧ e.2 ≠ "")
    "mappingConfig.schemaPaths.target paths must be non-empty"

structure EcBundle where
  taxonomy : Taxonomy
  policy : Policy
  componentGraph : ComponentGraph
  assignedBusinessContext : List CompTuples
deriving DecidableEq

/-- `validate_ec_inputs`: run the section validators in mission order, wrapping
`ValidationError`s into `Validation` envelopes with a section tag. -/
def validate_ec_inputs (b : EcBundle) (iucs : List Iuc) : Py (Option Envelope) :=
  match validate_taxonomy b.taxonomy with
  | .error (.validation m) =>
      some <$> build_error_envelope "Validation" ("taxonomy: " ++ m) [("section", "taxonomy")]
  | .error e => .error e
  | .ok _ =>
    match validate_policy b.policy b.taxonomy with
    | .error (.validation m) =>
        some <$> build_error_envelope "Validation" ("policy: " ++ m) [("section", "policy")]
    | .error e => .error e
    | .ok _ =>
      match validate_component_graph b.componentGraph with
      | .error (.validation m) =>
          some <$> build_error_envelope "Validation" ("componentGraph: " ++ m)
            [("section", "componentGraph")]
      | .error e => .error e
      | .ok _ =>
        match validate_assignments b.assignedBusinessContext b.taxonomy b.componentGraph with
        | .error (.validation m) =>
            some <$> build_error_envelope "Validation" ("assignedBusinessContext: " ++ m)
              [("section", "assignedBusinessContext")]
        | .error e => .error e
        | .ok _ =>
          match validate_iucs iucs b.taxonomy with
          | .error (.validation m) =>
              some <$> build_error_envelope "Validation" ("iucs: " ++ m) [("section", "iucs")]
          | .error e => .error e
          | .ok _ => .ok none

/-! ## Step 1 -/

/-- Key loop of `_normalize_tuple`; on failure the partial dicts are discarded. -/
def normalize_tuple_go (tb defaults : Tup) : List String → Except String (Tup × Tup)
  | [] => .ok ([], [])
  | k :: ks =>
    match alGet tb k with
    | some v => do
      let (n, f) ← normalize_tuple_go tb defaults ks
      .ok ((k, v) :: n, f)
    | none =>
      match alGet defaults k with
      | some d => do
        let (n, f) ← normalize_tuple_go tb defaults ks
        .ok ((k, d) :: n, (k, d) :: f)
      | none => .error ("missing-key-no-default:" ++ k)

/-- `_normalize_tuple`: complete the tuple from defaults, recording fills. -/
def normalize_tuple (tb : Tup) (t : Taxonomy) : Tup × Tup × Option String :=
  match normalize_tuple_go tb t.defaults t.keys with
  | .ok (n, f) => (n, f, none)
  | .error m => ([], [], some m)

/-- Policy-key match loop of `run_step1_prefilter` (`matched` flag). -/
def step1_match_policy (t : Taxonomy) (normalized legal : Tup) : List String → Py Bool
  | [] => .ok true
  | key :: rest => do
    let left ← alGetE normalized key
    let right ← alGetE legal key
    let ph ← alGetE t.placeholders key
    match intersect_token left right ph t.delimiter t.caseSensitive with
    | none => .ok false
    | some _ => step1_match_policy t normalized legal rest

/-- Key loop of step 1's `_intersect_tuple` (legal tokens default to the normalized token). -/
def intersect_tuple_step1_go (t : Taxonomy) (normalized legal : Tup) :
    List String → Py (Option Tup)
  | [] => .ok (some [])
  | key :: rest => do
    let left ← alGetE normalized key
    let right := (alGet legal key).getD left
    let ph ← alGetE t.placeholders key
    match intersect_token left right ph t.delimiter t.caseSensitive with
    | none => .ok none
    | some tok => do
      let r ← intersect_tuple_step1_go t normalized legal rest
      .ok (r.map (fun out => (key, tok) :: out))

/-- Step 1's `_intersect_tuple`. -/
def intersect_tuple_step1 (normalized legal : Tup) (t : Taxonomy) : Py (Option Tup) :=
  intersect_tuple_step1_go t normalized legal t.keys

structure LogEntry where
  componentId : String
  tupleIndex : Nat
  action : String
  fills : Tup
  witnesses : List Nat
  tupleBefore : Tup
  tuplesAfter : List Tup
  reason : Option String := none
deriving DecidableEq

/-- Legal-tuple loop of `run_step1_prefilter`: collect witnesses and narrowed tuples. -/
def step1_witness_loop (t : Taxonomy) (p : Policy) (normalized : Tup) (idx : Nat) :
    List Tup → Py (List Nat × List Tup)
  | [] => .ok ([], [])
  | legal :: rest => do
    let matched ← step1_match_policy t normalized legal p.policyKeys
    if matched then do
      let nt ← intersect_tuple_step1 normalized legal t
      let (ws, ns) ← step1_witness_loop t p normalized (idx + 1) rest
      match nt with
      | some tup => .ok (idx :: ws, tup :: ns)
      | none => .ok (ws, ns)
    else
      step1_witness_loop t p normalized (idx + 1) rest

/-- Body of `run_step1_prefilter` for one assignment tuple: the log entry and the
narrowed tuples appended to the component bucket. -/
def step1_process_tuple (t : Taxonomy) (p : Policy) (cid : String) (tidx : Nat) (tb : Tup) :
    Py (LogEntry × List Tup) :=
  match normalize_tuple tb t with
  | (_, fills, some reason) =>
    .ok (⟨cid, tidx, "dropped", fills, [], tb, [], some reason⟩, [])
  | (normalized, fills, none) => do
    let (witnesses, narrowed0) ← step1_witness_loop t p normalized 0 p.legalTuples
    let narrowed := dedup_exact_ordered narrowed0
    if narrowed.isEmpty then
      .ok (⟨cid, tidx, "dropped", fills, [], tb, [], some "no-legal-match"⟩, [])
    else
      .ok (⟨cid, tidx, "kept-multi", fills, witnesses, tb, narrowed, none⟩, narrowed)

/-- Does the legal tuple token-meet the normalized tuple on every policy key
(the loop's `matched` flag, viewed as a predicate)? -/
def policy_matched (t : Taxonomy) (p : Policy) (normalized legal : Tup) : Bool :=
  match step1_match_policy t normalized legal p.policyKeys with
  | .ok true => true
  | _ => false

/-- Is the full-tuple meet over all taxonomy keys defined? -/
def narrow_defined (t : Taxonomy) (normalized legal : Tup) : Bool :=
  match intersect_tuple_step1 normalized legal t with
  | .ok (some _) => true
  | _ => false

/-- The indices, in increasing order, of the legal tuples that both match on
every policy key and have a defined full-tuple meet. -/
def step1_expected_witnesses (t : Taxonomy) (p : Policy) (normalized : Tup) (idx : Nat) :
    List Tup → List Nat
  | [] => []
  | legal :: rest =>
    if policy_matched t p normalized legal && narrow_defined t normalized legal then
      idx :: step1_expected_witnesses t p normalized (idx + 1) rest
    else step1_expected_witnesses t p normalized (idx + 1) rest

/-- `prefiltered_by_component` initialisation (`if cid not in dict: dict[cid] = []`). -/
def bucket_init (buckets : List (String × List Tup)) (cid : String) :
    List (String × List Tup) :=
  if alHas buckets cid then buckets else buckets ++ [(cid, [])]

/-- `prefiltered_by_component[cid].extend(ts)`. -/
def bucket_extend (buckets : List (String × List Tup)) (cid : String) (ts : List Tup) :
    List (String × List Tup) :=
  alSet buckets cid ((alGet buckets cid).getD [] ++ ts)

/-- Tuple loop of `run_step1_prefilter` for one assignment entry. -/
def step1_entry_loop (t : Taxonomy) (p : Policy) (cid : String)
    (st : List (String × List Tup) × List LogEntry) (tidx : Nat) :
    List Tup → Py (List (String × List Tup) × List LogEntry)
  | [] => .ok st
  | tb :: rest => do
    let (entry, narrowed) ← step1_process_tuple t p cid tidx tb
    let buckets := if narrowed.isEmpty then st.1 else bucket_extend st.1 cid narrowed
    step1_entry_loop t p cid (buckets, st.2 ++ [entry]) (tidx + 1) rest

/-- Assignment loop of `run_step1_prefilter`. -/
def step1_assignments_loop (t : Taxonomy) (p : Policy)
    (st : List (String × List Tup) × List LogEntry) :
    List CompTuples → Py (List (String × List Tup) × List LogEntry)
  | [] => .ok st
  | entry :: rest => do
    let buckets := bucket_init st.1 entry.componentId
    let st' ← step1_entry_loop t p entry.componentId (buckets, st.2) 0 entry.tuples
    step1_assignments_loop t p st' rest

structure Step1Out where
  prefiltered : List CompTuples
  log : List LogEntry
deriving DecidableEq

/-- Final emission of `run_step1_prefilter`: dedup each bucket, drop empty ones. -/
def step1_emit : List (String × List Tup) → List CompTuples
  | [] => []
  | (cid, ts) :: rest =>
    let deduped := dedup_exact_ordered ts
    if deduped.isEmpty then step1_emit rest else ⟨cid, deduped⟩ :: step1_emit rest

/-- `run_step1_prefilter`. -/
def run_step1_prefilter (assignments : List CompTuples) (p : Policy) (t : Taxonomy) :
    Py Step1Out := do
  validate_taxonomy t
  validate_policy p t
  let (buckets, logs) ← step1_assignments_loop t p ([], []) assignments
  .ok ⟨step1_emit buckets, logs⟩

/-- `run_step1_prefilter_safe`. -/
def run_step1_prefilter_safe (assignments : List CompTuples) (p : Policy) (t : Taxonomy) :
    Py (Envelope ⊕ Step1Out) :=
  match run_step1_prefilter assignments p t with
  | .ok v => .ok (.inr v)
  | .error (.validation m) => .inl <$> build_error_envelope "Step1" m [("stage", "validation")]
  | .error (.keyError k) =>
      .inl <$> build_error_envelope "Step1" ("missing required field: " ++ k)
        [("stage", "runtime")]
  | .error .cycle =>
      .inl <$> build_error_envelope "Step1"
        "CycleDetectedError: ABIE dependency graph has a cycle" [("stage", "runtime")]

/-! ## Step 2 / Step 3 shared algebra

The component lists are viewed through `{x["id"]: x}` dicts.  After
`validate_component_graph` the ids are unique, so the list itself, looked up
with `dict_by_id` (last binding wins, as in Python), is the dict. -/

/-- Key loop of step 2/3's `_intersect_tuple` (both tuples indexed directly). -/
def intersect_tuple_oc_go (t : Taxonomy) (left right : Tup) : List String → Py (Option Tup)
  | [] => .ok (some [])
  | key :: rest => do
    let l ← alGetE left key
    let r ← alGetE right key
    let ph ← alGetE t.placeholders key
    match intersect_token l r ph t.delimiter t.caseSensitive with
    | none => .ok none
    | some tok => do
      let out ← intersect_tuple_oc_go t left right rest
      .ok (out.map (fun o => (key, tok) :: o))

/-- Step 2/3's `_intersect_tuple`. -/
def intersect_tuple_oc (left right : Tup) (t : Taxonomy) : Py (Option Tup) :=
  intersect_tuple_oc_go t left right t.keys

/-- Inner loop of `_t_intersect`: one left tuple against the whole right set. -/
def t_intersect_inner (t : Taxonomy) (left : Tup) : List Tup → Py (List Tup)
  | [] => .ok []
  | r :: rs => do
    let m ← intersect_tuple_oc left r t
    let rest ← t_intersect_inner t left rs
    .ok (match m with | some tup => tup :: rest | none => rest)

/-- Outer loop of `_t_intersect`. -/
def t_intersect_outer (t : Taxonomy) (rightSet : List Tup) : List Tup → Py (List Tup)
  | [] => .ok []
  | l :: ls => do
    let first ← t_intersect_inner t l rightSet
    let rest ← t_intersect_outer t rightSet ls
    .ok (first ++ rest)

/-- `_t_intersect`: cross-product meet, then exact dedup. -/
def t_intersect (leftSet rightSet : List Tup) (t : Taxonomy) : Py (List Tup) := do
  let out ← t_intersect_outer t rightSet leftSet
  .ok (dedup_exact_ordered out)

/-- Key loop of `_is_descendant_on_all_keys`, threading the `strict` flag. -/
def is_descendant_go (t : Taxonomy) (md ma : Tup) (strict : Bool) : List String → Py Bool
  | [] => .ok strict
  | key :: rest => do
    let anc ← alGetE ma key
    let desc ← alGetE md key
    if is_ancestor anc desc t.delimiter t.caseSensitive then
      is_descendant_go t md ma
        (strict || !(pnorm anc t.caseSensitive == pnorm desc t.caseSensitive)) rest
    else
      .ok false

/-- `_is_descendant_on_all_keys`. -/
def is_descendant_on_all_keys (md ma : Tup) (t : Taxonomy) : Py Bool :=
  is_descendant_go t md ma false t.keys

/-- Inner loop of `_collapse_ancestor_preferred`: does any other element
strictly dominate the candidate? -/
def collapse_drop_check (t : Taxonomy) (candidate : Tup) : List Tup → Py Bool
  | [] => .ok false
  | other :: rest =>
    if candidate = other then collapse_drop_check t candidate rest
    else do
      let b ← is_descendant_on_all_keys candidate other t
      if b then .ok true else collapse_drop_check t candidate rest

/-- Outer loop of `_collapse_ancestor_preferred`. -/
def collapse_go (t : Taxonomy) (deduped : List Tup) : List Tup → Py (List Tup)
  | [] => .ok []
  | c :: rest => do
    let dropped ← collapse_drop_check t c deduped
    let out ← collapse_go t deduped rest
    .ok (if dropped then out else c :: out)

/-- `_collapse_ancestor_preferred`. -/
def collapse_ancestor_preferred (tuples : List Tup) (t : Taxonomy) : Py (List Tup) :=
  let deduped := dedup_exact_ordered tuples
  collapse_go t deduped deduped

/-! ## Topological order (`_topological_order_or_cycle`, identical in
`step2.py` and `step3.py`) -/

/-- `childrenASBIE` loop of the edge build for one source ABIE. -/
def build_edges_children (asbies : List Asbie) (source : String)
    (st : List (String × List String) × List (String × Int)) :
    List String → Py (List (String × List String) × List (String × Int))
  | [] => .ok st
  | asbieId :: rest =>
    match dict_by_id asbies Asbie.id asbieId with
    | none => .error (.keyError asbieId)
    | some s => do
      let cur ← alGetE st.1 source
      if s.targetABIE ∈ cur then
        build_edges_children asbies source st rest
      else do
        let d ← alGetE st.2 s.targetABIE
        build_edges_children asbies source
          (alSet st.1 source (cur ++ [s.targetABIE]), alSet st.2 s.targetABIE (d + 1)) rest

/-- ABIE loop of the edge build. -/
def build_edges_abies (asbies : List Asbie)
    (st : List (String × List String) × List (String × Int)) :
    List Abie → Py (List (String × List String) × List (String × Int))
  | [] => .ok st
  | a :: rest => do
    let st' ← build_edges_children asbies a.id st a.childrenASBIE
    build_edges_abies asbies st' rest

/-- `[n for n in abie_ids if indeg[n] == 0]`. -/
def kahn_queue_init (indeg : List (String × Int)) : List String → Py (List String)
  | [] => .ok []
  | n :: ns => do
    let d ← alGetE indeg n
    let rest ← kahn_queue_init indeg ns
    .ok (if d = 0 then n :: rest else rest)

/-- Decrement loop over a popped node's successors; `appended` collects the
nodes whose in-degree reaches zero (they join the queue). -/
def kahn_decrement (indeg : List (String × Int)) (appended : List String) :
    List String → Py (List (String × Int) × List String)
  | [] => .ok (indeg, appended)
  | nxt :: rest =>
    match alGet indeg nxt with
    | none => .error (.keyError nxt)
    | some d =>
      kahn_decrement (alSet indeg nxt (d - 1))
        (if d - 1 = 0 then appended ++ [nxt] else appended) rest

/-- Total positive in-degree, the potential of the Kahn loop. -/
def kahn_weight (indeg : List (String × Int)) : Nat :=
  (indeg.map (fun p => p.2.toNat)).sum

theorem kahn_weight_alSet (m : List (String × Int)) (k : String) (d v : Int)
    (h : alGet m k = some d) :
    kahn_weight (alSet m k v) + d.toNat = kahn_weight m + v.toNat := by
  induction m with
  | nil => simp [alGet] at h
  | cons p rest ih =>
    by_cases hk : p.1 = k
    · obtain ⟨k', v'⟩ := p
      simp only at hk
      subst hk
      simp [alGet] at h
      subst h
      simp [alSet, kahn_weight]
      omega
    · obtain ⟨k', v'⟩ := p
      simp only at hk
      simp only [alGet, if_neg hk] at h
      have := ih h
      simp only [alSet, if_neg hk, kahn_weight, List.map_cons, List.sum_cons] at *
      omega

theorem kahn_decrement_bound : ∀ (vs : List String) (indeg : List (String × Int))
    (app indeg_app : List String) (indeg' : List (String × Int)),
    kahn_decrement indeg app vs = .ok (indeg', indeg_app) →
    indeg_app.length + kahn_weight indeg' ≤ app.length + kahn_weight indeg := by
  intro vs
  induction vs with
  | nil =>
    intro indeg app app' indeg' h
    simp only [kahn_decrement, Except.ok.injEq, Prod.mk.injEq] at h
    obtain ⟨h1, h2⟩ := h
    subst h1; subst h2
    exact le_refl _
  | cons nxt rest ih =>
    intro indeg app app' indeg' h
    simp only [kahn_decrement] at h
    cases hg : alGet indeg nxt with
    | none => rw [hg] at h; exact absurd h (by simp)
    | some d =>
      rw [hg] at h
      have hw := kahn_weight_alSet indeg nxt d (d - 1) hg
      have hih := ih _ _ _ _ h
      by_cases hd : d - 1 = 0
      · rw [if_pos hd] at hih
        have : (d - 1).toNat + 1 = d.toNat := by omega
        simp only [List.length_append, List.length_cons, List.length_nil] at hih
        omega
      · rw [if_neg hd] at hih
        have : (d - 1).toNat ≤ d.toNat := by omega
        omega

/-- The Kahn queue loop (`while queue: ...`), structurally recursive on a fuel
that strictly bounds the number of iterations (`kahn_loop_fuel_irrelevant`
below shows any fuel above `queue.length + kahn_weight indeg` gives the same
result, so the fuel-0 fallback is unreachable from `topological_order_or_cycle`). -/
def kahn_loop (edges : List (String × List String)) :
    Nat → List (String × Int) → List String → List String → Py (List String)
  | 0, _, _, out => .ok out
  | fuel + 1, indeg, queue, out =>
    match queue with
    | [] => .ok out
    | node :: qrest =>
      match alGet edges node with
      | none => .error (.keyError node)
      | some vs =>
        match kahn_decrement indeg [] (sortStrings vs) with
        | .error e => .error e
        | .ok (indeg', app) => kahn_loop edges fuel indeg' (qrest ++ app) (out ++ [node])

theorem kahn_loop_fuel_irrelevant (edges : List (String × List String)) :
    ∀ (f g : Nat) (indeg : List (String × Int)) (queue out : List String),
    queue.length + kahn_weight indeg < f → queue.length + kahn_weight indeg < g →
    kahn_loop edges f indeg queue out = kahn_loop edges g indeg queue out := by
  intro f
  induction f with
  | zero => intro g indeg queue out hf; omega
  | succ f ih =>
    intro g indeg queue out hf hg
    cases g with
    | zero => omega
    | succ g =>
      cases queue with
      | nil => simp [kahn_loop]
      | cons node qrest =>
        simp only [kahn_loop]
        cases alGet edges node with
        | none => rfl
        | some vs =>
          simp only
          cases hd : kahn_decrement indeg [] (sortStrings vs) with
          | error e => rfl
          | ok p =>
            obtain ⟨indeg', app⟩ := p
            have hb := kahn_decrement_bound _ _ _ _ _ hd
            simp only [List.length_nil, Nat.zero_add] at hb
            apply ih
            · simp only [List.length_append, List.length_cons] at *
              omega
            · simp only [List.length_append, List.length_cons] at *
              omega

/-- `_topological_order_or_cycle`. -/
def topological_order_or_cycle (g : ComponentGraph) : Py (List String) := do
  let abieIds := g.abies.map Abie.id
  let nodes := dedup_first [] abieIds
  let st ← build_edges_abies g.asbies
    (nodes.map (fun n => (n, ([] : List String))), nodes.map (fun n => (n, (0 : Int)))) g.abies
  let q0 ← kahn_queue_init st.2 abieIds
  let queue := sortStrings q0
  let out ← kahn_loop st.1 (queue.length + kahn_weight st.2 + 1) st.2 queue []
  if out.length ≠ abieIds.length then .error .cycle else .ok out

/-! ## Step 2 -/

/-- The three per-kind component maps (the payload under `"oc"` / `"ec"`). -/
structure BucketMaps where
  ABIE : List (String × List Tup) := []
  ASBIE : List (String × List Tup) := []
  BBIE : List (String × List Tup) := []
deriving DecidableEq

/-- `prefiltered_map` accumulation (`setdefault` + `extend`). -/
def step2_pref_map_go (m : List (String × List Tup)) :
    List CompTuples → List (String × List Tup)
  | [] => m
  | e :: rest => step2_pref_map_go (bucket_extend m e.componentId e.tuples) rest

/-- `prefiltered_map` with each bucket exact-deduped. -/
def step2_pref_map (prefiltered : List CompTuples) : List (String × List Tup) :=
  (step2_pref_map_go [] prefiltered).map (fun p => (p.1, dedup_exact_ordered p.2))

/-- The concatenation of the tuples of all prefiltered entries naming `cid`. -/
def prefiltered_tuples_for (prefiltered : List CompTuples) (cid : String) : List Tup :=
  ((prefiltered.filter (fun e => e.componentId == cid)).map CompTuples.tuples).flatten

/-- `oc_bbie`: prefiltered tuples verbatim over the sorted BBIE ids. -/
def oc_bbie_map (g : ComponentGraph) (prefMap : List (String × List Tup)) :
    List (String × List Tup) :=
  (sortStrings (dedup_first [] (g.bbies.map Bbie.id))).map
    (fun b => (b, (alGet prefMap b).getD []))

/-- `childrenASBIE` loop of the step-2 reverse-topological pass. -/
def step2_asbie_children (t : Taxonomy) (g : ComponentGraph)
    (prefMap ocAbie ocAsbie : List (String × List Tup)) :
    List String → Py (List (String × List Tup))
  | [] => .ok ocAsbie
  | asbieId :: rest =>
    match dict_by_id g.asbies Asbie.id asbieId with
    | none => .error (.keyError asbieId)
    | some s => do
      let ocTarget ← alGetE ocAbie s.targetABIE
      let inter ← t_intersect ((alGet prefMap asbieId).getD []) ocTarget t
      step2_asbie_children t g prefMap ocAbie (alSet ocAsbie asbieId inter) rest

/-- `child_sets` concatenation over sorted child ids. -/
def concat_from (m : List (String × List Tup)) : List String → List Tup
  | [] => []
  | k :: ks => (alGet m k).getD [] ++ concat_from m ks

/-- Reverse-topological ABIE loop of `run_step2_oc`. -/
def step2_abie_loop (t : Taxonomy) (g : ComponentGraph)
    (prefMap ocBbie : List (String × List Tup))
    (st : List (String × List Tup) × List (String × List Tup)) :
    List String → Py (List (String × List Tup) × List (String × List Tup))
  | [] => .ok st
  | abieId :: rest =>
    match dict_by_id g.abies Abie.id abieId with
    | none => .error (.keyError abieId)
    | some a => do
      let ocAsbie' ← step2_asbie_children t g prefMap st.2 st.1 (sortStrings a.childrenASBIE)
      let childSets := concat_from ocAsbie' (sortStrings a.childrenASBIE) ++
        concat_from ocBbie (sortStrings a.childrenBBIE)
      step2_abie_loop t g prefMap ocBbie
        (ocAsbie', alSet st.2 abieId (dedup_exact_ordered childSets)) rest

/-- `run_step2_oc` (the returned value is the payload under the `"oc"` key). -/
def run_step2_oc (prefiltered : List CompTuples) (g : ComponentGraph) (t : Taxonomy) :
    Py BucketMaps := do
  validate_taxonomy t
  validate_component_graph g
  let topo ← topological_order_or_cycle g
  let prefMap := step2_pref_map prefiltered
  let ocBbie := oc_bbie_map g prefMap
  let st ← step2_abie_loop t g prefMap ocBbie ([], []) topo.reverse
  .ok
    { ABIE := (sortStrings (st.2.map Prod.fst)).map (fun k => (k, (alGet st.2 k).getD []))
      ASBIE := (sortStrings (dedup_first [] (g.asbies.map Asbie.id))).map
        (fun k => (k, (alGet st.1 k).getD []))
      BBIE := (sortStrings (dedup_first [] (g.bbies.map Bbie.id))).map
        (fun k => (k, (alGet ocBbie k).getD [])) }

/-- `run_step2_oc_safe`. -/
def run_step2_oc_safe (prefiltered : List CompTuples) (g : ComponentGraph) (t : Taxonomy) :
    Py (Envelope ⊕ BucketMaps) :=
  match run_step2_oc prefiltered g t with
  | .ok v => .ok (.inr v)
  | .error .cycle =>
      .inl <$> build_error_envelope "Step2" "OC_non_convergent_cycle" [("stage", "cycle")]
  | .error (.validation m) => .inl <$> build_error_envelope "Step2" m [("stage", "validation")]
  | .error (.keyError k) =>
      .inl <$> build_error_envelope "Step2" ("missing required field: " ++ k)
        [("stage", "runtime")]

/-! ## Step 3 -/

/-- `incoming[target].append(asbie_id)` accumulation. -/
def step3_incoming_go (m : List (String × List String)) : List Asbie → Py (List (String × List String))
  | [] => .ok m
  | s :: rest => do
    let cur ← alGetE m s.targetABIE
    step3_incoming_go (alSet m s.targetABIE (cur ++ [s.id])) rest

/-- `incoming`: sorted incoming ASBIE ids for every ABIE id. -/
def step3_incoming (g : ComponentGraph) : Py (List (String × List String)) := do
  let m0 := (dedup_first [] (g.abies.map Abie.id)).map (fun k => (k, ([] : List String)))
  let m ← step3_incoming_go m0 g.asbies
  .ok (m.map (fun p => (p.1, sortStrings p.2)))

/-- `childrenBBIE` loop of the step-3 top-down pass. -/
def step3_bbie_children (t : Taxonomy) (ocBbie : List (String × List Tup)) (ecAbieVal : List Tup)
    (ecBbie : List (String × List Tup)) : List String → Py (List (String × List Tup))
  | [] => .ok ecBbie
  | bbieId :: rest => do
    let inter ← t_intersect ((alGet ocBbie bbieId).getD []) ecAbieVal t
    step3_bbie_children t ocBbie ecAbieVal (alSet ecBbie bbieId inter) rest

/-- `childrenASBIE` loop of the step-3 top-down pass. -/
def step3_asbie_children (t : Taxonomy) (ocAsbie : List (String × List Tup)) (ecAbieVal : List Tup)
    (ecAsbie : List (String × List Tup)) : List String → Py (List (String × List Tup))
  | [] => .ok ecAsbie
  | asbieId :: rest => do
    let inter ← t_intersect ((alGet ocAsbie asbieId).getD []) ecAbieVal t
    step3_asbie_children t ocAsbie ecAbieVal (alSet ecAsbie asbieId inter) rest

/-- Topological ABIE loop of `run_step3_ec`; the state is `(ec_abie, ec_asbie, ec_bbie)`. -/
def step3_abie_loop (t : Taxonomy) (g : ComponentGraph) (root : String) (seed : List Tup)
    (oc : BucketMaps) (incoming : List (String × List String))
    (st : List (String × List Tup) × List (String × List Tup) × List (String × List Tup)) :
    List String →
    Py (List (String × List Tup) × List (String × List Tup) × List (String × List Tup))
  | [] => .ok st
  | abieId :: rest => do
    let gate ←
      if abieId = root then pure seed
      else do
        let inc ← alGetE incoming abieId
        if !inc.isEmpty then
          pure (dedup_exact_ordered (concat_from st.2.1 inc))
        else
          pure ((alGet oc.ABIE abieId).getD [])
    let ecAbieVal ← t_intersect ((alGet oc.ABIE abieId).getD []) gate t
    match dict_by_id g.abies Abie.id abieId with
    | none => .error (.keyError abieId)
    | some a => do
      let ecBbie' ← step3_bbie_children t oc.BBIE ecAbieVal st.2.2 (sortStrings a.childrenBBIE)
      let ecAsbie' ← step3_asbie_children t oc.ASBIE ecAbieVal st.2.1 (sortStrings a.childrenASBIE)
      step3_abie_loop t g root seed oc incoming
        (alSet st.1 abieId ecAbieVal, ecAsbie', ecBbie') rest

/-- Final `_collapse_ancestor_preferred` pass over every value of an EC map. -/
def collapse_values (t : Taxonomy) : List (String × List Tup) → Py (List (String × List Tup))
  | [] => .ok []
  | (k, v) :: rest => do
    let c ← collapse_ancestor_preferred v t
    let r ← collapse_values t rest
    .ok ((k, c) :: r)

/-- `run_step3_ec` (the returned value is the payload under the `"ec"` key). -/
def run_step3_ec (oc : BucketMaps) (g : ComponentGraph) (t : Taxonomy) (iuc : Iuc) :
    Py BucketMaps := do
  validate_taxonomy t
  validate_component_graph g
  validate_iucs [iuc] t
  let topo ← topological_order_or_cycle g
  let root := g.rootABIE
  let incoming ← step3_incoming g
  let profileTuples := dedup_exact_ordered iuc.tuples
  let seed0 ← t_intersect ((alGet oc.ABIE root).getD []) profileTuples t
  let seed ← collapse_ancestor_preferred seed0 t
  let ecAbie0 := (dedup_first [] (g.abies.map Abie.id)).map (fun k => (k, ([] : List Tup)))
  let ecAsbie0 := (dedup_first [] (g.asbies.map Asbie.id)).map (fun k => (k, ([] : List Tup)))
  let ecBbie0 := (dedup_first [] (g.bbies.map Bbie.id)).map (fun k => (k, ([] : List Tup)))
  let st ← step3_abie_loop t g root seed oc incoming (ecAbie0, ecAsbie0, ecBbie0) topo
  let ecAbie ← collapse_values t st.1
  let ecAsbie ← collapse_values t st.2.1
  let ecBbie ← collapse_values t st.2.2
  .ok
    { ABIE := (sortStrings (ecAbie.map Prod.fst)).map (fun k => (k, (alGet ecAbie k).getD []))
      ASBIE := (sortStrings (ecAsbie.map Prod.fst)).map (fun k => (k, (alGet ecAsbie k).getD []))
      BBIE := (sortStrings (ecBbie.map Prod.fst)).map (fun k => (k, (alGet ecBbie k).getD [])) }

/-- `run_step3_ec_safe`. -/
def run_step3_ec_safe (oc : BucketMaps) (g : ComponentGraph) (t : Taxonomy) (iuc : Iuc) :
    Py (Envelope ⊕ BucketMaps) :=
  match run_step3_ec oc g t iuc with
  | .ok v => .ok (.inr v)
  | .error .cycle =>
      .inl <$> build_error_envelope "Step3" "EC_non_convergent_cycle" [("stage", "cycle")]
  | .error (.validation m) => .inl <$> build_error_envelope "Step3" m [("stage", "validation")]
  | .error (.keyError k) =>
      .inl <$> build_error_envelope "Step3" ("missing required field: " ++ k)
        [("stage", "runtime")]

/-! ## Step 4 -/

structure AbieInclude where
  id : String
  ecTuples : List Tup
deriving DecidableEq

structure AsbieInclude where
  id : String
  ecTuples : List Tup
  sourceABIE : String
  targetABIE : String
deriving DecidableEq

structure BbieInclude where
  id : String
  ownerABIE : String
  ecTuples : List Tup
deriving DecidableEq

structure ProfileSchema where
  version : String
  profileId : String
  rootABIE : String
  includesABIE : List AbieInclude
  includesASBIE : List AsbieInclude
  includesBBIE : List BbieInclude
  notes : List String
  traceSourceEC : String
  isRealizable : Bool
deriving DecidableEq

/-- ASBIE target-closure loop of `run_step4_profile_schema` (set `add`). -/
def step4_closure (g : ComponentGraph) (ecAbie : List (String × List Tup))
    (includedAbie : List String) : List String → Py (List String)
  | [] => .ok includedAbie
  | asbieId :: rest =>
    match dict_by_id g.asbies Asbie.id asbieId with
    | none => .error (.keyError asbieId)
    | some s =>
      let included' :=
        match alGet ecAbie s.targetABIE with
        | some v =>
          if ¬v.isEmpty ∧ s.targetABIE ∉ includedAbie then includedAbie ++ [s.targetABIE]
          else includedAbie
        | none => includedAbie
      step4_closure g ecAbie included' rest

/-- `includes.ABIE` build loop. -/
def step4_build_abie (ecAbie : List (String × List Tup)) (g : ComponentGraph) :
    List String → Py (List AbieInclude)
  | [] => .ok []
  | i :: rest =>
    if (dict_by_id g.abies Abie.id i).isSome then do
      let v ← alGetE ecAbie i
      let r ← step4_build_abie ecAbie g rest
      .ok (⟨i, v⟩ :: r)
    else step4_build_abie ecAbie g rest

/-- `includes.ASBIE` build loop. -/
def step4_build_asbie (ecAsbie : List (String × List Tup)) (g : ComponentGraph) :
    List String → Py (List AsbieInclude)
  | [] => .ok []
  | i :: rest =>
    match dict_by_id g.asbies Asbie.id i with
    | some s => do
      let v ← alGetE ecAsbie i
      let r ← step4_build_asbie ecAsbie g rest
      .ok (⟨i, v, s.sourceABIE, s.targetABIE⟩ :: r)
    | none => step4_build_asbie ecAsbie g rest

/-- `includes.BBIE` build loop. -/
def step4_build_bbie (ecBbie : List (String × List Tup)) (g : ComponentGraph) :
    List String → Py (List BbieInclude)
  | [] => .ok []
  | i :: rest =>
    match dict_by_id g.bbies Bbie.id i with
    | some b => do
      let v ← alGetE ecBbie i
      let r ← step4_build_bbie ecBbie g rest
      .ok (⟨i, b.ownerABIE, v⟩ :: r)
    | none => step4_build_bbie ecBbie g rest

/-- `run_step4_profile_schema`. -/
def run_step4_profile_schema (ec : BucketMaps) (g : ComponentGraph) (iuc : Iuc) :
    Py ProfileSchema := do
  validate_component_graph g
  let includedAbie0 := dedup_first [] ((ec.ABIE.filter (fun p => !p.2.isEmpty)).map Prod.fst)
  let includedAsbie := dedup_first [] ((ec.ASBIE.filter (fun p => !p.2.isEmpty)).map Prod.fst)
  let includedBbie := dedup_first [] ((ec.BBIE.filter (fun p => !p.2.isEmpty)).map Prod.fst)
  let includedAbie1 ← step4_closure g ec.ABIE includedAbie0 (sortStrings includedAsbie)
  let rootEc := (alGet ec.ABIE g.rootABIE).getD []
  let isRealizable := !rootEc.isEmpty
  let includedAbie2 :=
    if isRealizable then includedAbie1 else includedAbie1.filter (· ≠ g.rootABIE)
  let incA ← step4_build_abie ec.ABIE g (sortStrings includedAbie2)
  let incS ← step4_build_asbie ec.ASBIE g (sortStrings includedAsbie)
  let incB ← step4_build_bbie ec.BBIE g (sortStrings includedBbie)
  .ok ⟨"ProfileSchema-1.0", iuc.id, g.rootABIE, incA, incS, incB,
    ["seed: ancestor-preferred collapse", "emission: collapse per component",
     "exact-dedup inside steps"], "Step3", isRealizable⟩

/-! ## Mapping -/

/-- `project_tuples`: retain only the axes, in axis order, then exact-dedup. -/
def project_tuples (tuples : List Tup) (axes : List String) : List Tup :=
  dedup_exact_ordered
    (tuples.map (fun tp => axes.filterMap (fun k => (alGet tp k).map (fun v => (k, v)))))

/-- `intersect_projected`: exact-tuple membership intersection, deduped. -/
def intersect_projected (left right : List Tup) : List Tup :=
  dedup_exact_ordered (left.filter (fun x => x ∈ right))

/-- `classify_component`. -/
def classify_component (ecSourceFull ecTargetFull : List Tup) (kcdAxes : List String) :
    String × List Tup × List Tup × List Tup :=
  if (project_tuples ecSourceFull kcdAxes).length = 0 ∨
      (project_tuples ecTargetFull kcdAxes).length = 0 then
    ("NO_MAPPING", project_tuples ecSourceFull kcdAxes, project_tuples ecTargetFull kcdAxes, [])
  else if 0 < (intersect_projected (project_tuples ecSourceFull kcdAxes)
      (project_tuples ecTargetFull kcdAxes)).length then
    ("SEAMLESS", project_tuples ecSourceFull kcdAxes, project_tuples ecTargetFull kcdAxes,
      intersect_projected (project_tuples ecSourceFull kcdAxes)
        (project_tuples ecTargetFull kcdAxes))
  else
    ("CONTEXTUAL_TRANSFORM", project_tuples ecSourceFull kcdAxes,
      project_tuples ecTargetFull kcdAxes,
      intersect_projected (project_tuples ecSourceFull kcdAxes)
        (project_tuples ecTargetFull kcdAxes))

structure MappingJson where
  componentId : String
  sourcePath : String
  targetPath : String
  decision : String
  transform : String
deriving DecidableEq

structure ExplanationJson where
  componentId : String
  tldr : String
  relevantAxes : List String
  decision : String
deriving DecidableEq

structure Mra where
  componentId : String
  anchor : String
  relevantAxes : List String
  decision : String
  EC_source : List Tup
  EC_target : List Tup
  EC_common_on_KCD : List Tup
  mappingJson : MappingJson
  explanationJson : ExplanationJson
deriving DecidableEq

/-- `build_mra`. -/
def build_mra (componentId anchor : String) (relevantAxes : List String) (decision : String)
    (ecSourceFull ecTargetFull ecCommonOnKcd : List Tup) (sourcePath targetPath : String) :
    Mra :=
  { componentId, anchor, relevantAxes, decision
    EC_source := ecSourceFull, EC_target := ecTargetFull, EC_common_on_KCD := ecCommonOnKcd
    mappingJson := ⟨componentId, sourcePath, targetPath, decision,
      if decision = "SEAMLESS" then "identity_or_direct" else "contextual_transform"⟩
    explanationJson :=
      ⟨componentId, decision ++ " based on KCD comparison", relevantAxes, decision⟩ }

/-- `_component_ec`: scan `ABIE`, `ASBIE`, `BBIE` buckets in order. -/
def component_ec (ec : BucketMaps) (componentId : String) : List Tup :=
  match alGet ec.ABIE componentId with
  | some v => v
  | none =>
    match alGet ec.ASBIE componentId with
    | some v => v
    | none => (alGet ec.BBIE componentId).getD []

structure Profile where
  ec : BucketMaps
deriving DecidableEq

/-- One iteration of the per-component loop of `run_mapping_pipeline`: zero or
one MRA for this component id (the `continue` branches yield `[]`). -/
def mra_step (sourceEc targetEc : BucketMaps) (catalog : List (String × CatEntry))
    (paths : SchemaPaths) (cid : String) : List Mra :=
  if (component_ec sourceEc cid).length = 0 ∨ (component_ec targetEc cid).length = 0 then []
  else
    match alGet catalog cid with
    | none => []
    | some entry =>
      if (classify_component (component_ec sourceEc cid) (component_ec targetEc cid)
          (entry.relevantAxes.getD [])).1 = "NO_MAPPING" then []
      else
        [build_mra cid entry.anchor (entry.relevantAxes.getD [])
          (classify_component (component_ec sourceEc cid) (component_ec targetEc cid)
            (entry.relevantAxes.getD [])).1
          (component_ec sourceEc cid) (component_ec targetEc cid)
          (classify_component (component_ec sourceEc cid) (component_ec targetEc cid)
            (entry.relevantAxes.getD [])).2.2.2
          ((alGet paths.source cid).getD "") ((alGet paths.target cid).getD "")]

/-- Per-component loop of `run_mapping_pipeline` for one profile pair. -/
def pair_mras_go (sourceEc targetEc : BucketMaps) (catalog : List (String × CatEntry))
    (paths : SchemaPaths) : List String → List Mra
  | [] => []
  | cid :: rest =>
    mra_step sourceEc targetEc catalog paths cid ++
      pair_mras_go sourceEc targetEc catalog paths rest

/-- The MRA list for one profile pair: the catalog keys, sorted, each classified. -/
def pair_mras (sourceEc targetEc : BucketMaps) (catalog : List (String × CatEntry))
    (paths : SchemaPaths) : List Mra :=
  pair_mras_go sourceEc targetEc catalog paths (sortStrings (dedup_first [] (catalog.map Prod.fst)))

inductive MappingArtifact where
  | mras (l : List Mra)
  | explanations (l : List ExplanationJson)
deriving DecidableEq

structure MappingOut where
  artifacts : List (String × MappingArtifact)
deriving DecidableEq

/-- Python `str(exc)` for the embedded exception classes. -/
def pyStr : PyErr → String
  | .validation m => m
  | .keyError k => "\x27" ++ k ++ "\x27"
  | .cycle => "ABIE dependency graph has a cycle"

/-- Python `exc.__class__.__name__` for the embedded exception classes. -/
def pyClass : PyErr → String
  | .validation _ => "ValidationError"
  | .keyError _ => "KeyError"
  | .cycle => "CycleDetectedError"

/-- Profile-pair loop of `run_mapping_pipeline`. -/
def mapping_pairs_loop (profiles : List (String × Profile)) (catalog : List (String × CatEntry))
    (paths : SchemaPaths) (artifacts : List (String × MappingArtifact)) :
    List ProfilePair → Py (Envelope ⊕ List (String × MappingArtifact))
  | [] => .ok (.inr artifacts)
  | pair :: rest =>
    match alGet profiles pair.sourceProfileId, alGet profiles pair.targetProfileId with
    | some sp, some tp =>
      let mras := pair_mras sp.ec tp.ec catalog paths
      let expl := mras.map Mra.explanationJson
      mapping_pairs_loop profiles catalog paths
        (alSet
          (alSet artifacts
            ("mapping.mra." ++ pair.sourceProfileId ++ "." ++ pair.targetProfileId ++ ".json")
            (.mras mras))
          ("mapping.explanations." ++ pair.sourceProfileId ++ "." ++ pair.targetProfileId ++
            ".json")
          (.explanations expl)) rest
    | _, _ =>
      (Sum.inl ·) <$> build_error_envelope "Validation"
        ("profile not found in mapping inputs: " ++ pair.sourceProfileId ++ "->" ++
          pair.targetProfileId)
        [("stage", "profiles")]

/-- `run_mapping_pipeline`. -/
def run_mapping_pipeline (profiles : List (String × Profile)) (cfg0 : MappingConfig) :
    Py (Envelope ⊕ MappingOut) :=
  match validate_mapping_config cfg0 with
  | .error e =>
      (Sum.inl ·) <$> build_error_envelope "Validation" (pyStr e) [("stage", "mapping-config")]
  | .ok _ =>
    let cfg := normalize_mapping_config cfg0
    match mapping_pairs_loop profiles cfg.bie_catalog cfg.schemaPaths [] cfg.profilePairs with
    | .error e => .error e
    | .ok (.inl env) => .ok (.inl env)
    | .ok (.inr arts) => .ok (.inr ⟨arts⟩)

/-! ## EC pipeline orchestrator -/

inductive EcArtifact where
  | step1 (v : Step1Out)
  | step2 (v : BucketMaps)
  | step3 (v : BucketMaps)
  | step4 (v : ProfileSchema)
deriving DecidableEq

structure EcOut where
  artifacts : List (String × EcArtifact)
  profileIds : List String
deriving DecidableEq

/-- Per-IUC loop of `run_ec_pipeline` (Step 3 then Step 4). -/
def ec_iuc_loop (t : Taxonomy) (g : ComponentGraph) (oc : BucketMaps)
    (artifacts : List (String × EcArtifact)) :
    List Iuc → Py (Envelope ⊕ List (String × EcArtifact))
  | [] => .ok (.inr artifacts)
  | iuc :: rest => do
    let s3 ← run_step3_ec_safe oc g t iuc
    match s3 with
    | .inl env => .ok (.inl env)
    | .inr ec =>
      match run_step4_profile_schema ec g iuc with
      | .error e =>
          (Sum.inl ·) <$> build_error_envelope "Step4" (pyClass e ++ ": " ++ pyStr e)
            [("profileId", iuc.id)]
      | .ok schema =>
          ec_iuc_loop t g oc
            (alSet (alSet artifacts ("step3-ec." ++ iuc.id ++ ".json") (.step3 ec))
              ("step4-profile." ++ iuc.id ++ ".json") (.step4 schema)) rest

/-- `run_ec_pipeline`. -/
def run_ec_pipeline (b : EcBundle) (iucs : List Iuc) : Py (Envelope ⊕ EcOut) := do
  let venv ← validate_ec_inputs b iucs
  match venv with
  | some env => .ok (.inl env)
  | none => do
    let s1 ← run_step1_prefilter_safe b.assignedBusinessContext b.policy b.taxonomy
    match s1 with
    | .inl env => .ok (.inl env)
    | .inr step1 => do
      let s2 ← run_step2_oc_safe step1.prefiltered b.componentGraph b.taxonomy
      match s2 with
      | .inl env => .ok (.inl env)
      | .inr oc => do
        let arts0 := [("step1-prefiltered.json", EcArtifact.step1 step1),
                      ("step2-oc.json", EcArtifact.step2 oc)]
        let r ← ec_iuc_loop b.taxonomy b.componentGraph oc arts0 iucs
        match r with
        | .inl env => .ok (.inl env)
        | .inr arts => .ok (.inr ⟨arts, iucs.map Iuc.id⟩)

/-! ## Concrete inputs (spec §8, Scenario A) -/

def scenA_tax : Taxonomy :=
  { keys := ["Region", "Channel"]
    placeholders := [("Region", "Region.<Any>"), ("Channel", "Channel.<Any>")]
    categories := [("Region", ["Region", "Region.EU", "Region.EU.DE", "Region.US"]),
                   ("Channel", ["Channel", "Channel.B2B", "Channel.B2C"])]
    defaults := [("Channel", "Channel.B2B")] }

def scenA_policy : Policy :=
  { policyKeys := ["Region", "Channel"]
    legalTuples := [[("Region", "Region.<Any>"), ("Channel", "Channel.B2B")],
                    [("Region", "Region.EU"), ("Channel", "Channel.<Any>")]] }

def scenA_assignments : List CompTuples :=
  [⟨"BBIE.InvoiceID", [[("Region", "Region.EU")]]⟩]

def g5 : ComponentGraph :=
  { rootABIE := "A", abies := [⟨"A", ["B"], []⟩], asbies := [], bbies := [⟨"B", "A"⟩] }

def g1 : ComponentGraph :=
  { rootABIE := "A", abies := [⟨"A", [], ["X"]⟩, ⟨"B", [], []⟩]
    asbies := [⟨"X", "A", "B"⟩, ⟨"Y", "B", "A"⟩], bbies := [] }

def g9 : ComponentGraph :=
  { rootABIE := "R", abies := [⟨"R", [], []⟩], asbies := [], bbies := [] }

/-- A component graph whose childrenASBIE-listing edge relation is cyclic
(`CA -> CB` via `CX`, `CB -> CA` via `CY`). -/
def c1g : ComponentGraph :=
  { rootABIE := "CA", abies := [⟨"CA", [], ["CX"]⟩, ⟨"CB", [], ["CY"]⟩]
    asbies := [⟨"CX", "CA", "CB"⟩, ⟨"CY", "CB", "CA"⟩], bbies := [] }

/-- Concrete EC payload used to instantiate the step-4 theorems. -/
def ec9 : BucketMaps :=
  { ABIE := [("R", [[("Region", "Region.EU")]])] }

/-- The profile schema `run_step4_profile_schema ec9 g9 ⟨"I", []⟩` evaluates to. -/
def step4out9 : ProfileSchema :=
  ⟨"ProfileSchema-1.0", "I", "R", [⟨"R", [[("Region", "Region.EU")]]⟩], [], [],
    ["seed: ancestor-preferred collapse", "emission: collapse per component",
     "exact-dedup inside steps"], "Step3", true⟩

/-- Concrete mapping inputs (spec §8, Scenario E). -/
def mapS : BucketMaps :=
  { BBIE := [("BBIE.InvoiceID", [[("Region", "Region.EU"), ("Channel", "Channel.B2B")]])] }

def mapT : BucketMaps :=
  { BBIE := [("BBIE.InvoiceID", [[("Region", "Region.EU"), ("Channel", "Channel.B2C")]])] }

def mapCat : List (String × CatEntry) :=
  [("BBIE.InvoiceID", { anchor := "InvoiceID", relevantAxes := some ["Region"] })]

/-- Policy with a legal tuple whose extra (non-policy) key blocks the full meet. -/
def c2_policy : Policy :=
  { policyKeys := ["Region"]
    legalTuples := [[("Region", "Region.EU"), ("Channel", "Channel.B2C")],
                    [("Region", "Region.EU")]] }

/-- The ABIE edge relation the code builds: `u → v` iff some ABIE with id `u`
lists in `childrenASBIE` an ASBIE (resolved through the id dict) whose
`targetABIE` is `v`. -/
def codeEdge (g : ComponentGraph) (u v : String) : Prop :=
  ∃ a ∈ g.abies, a.id = u ∧ ∃ sid ∈ a.childrenASBIE,
    ∃ s, dict_by_id g.asbies Asbie.id sid = some s ∧ s.targetABIE = v

/-- Modelled from the spec wording of §4.4: an edge `A → B` exists iff some
ASBIE with `sourceABIE = A` has `targetABIE = B` (for comparison with
`codeEdge`, which is what `_topological_order_or_cycle` actually builds). -/
def specSourceEdge (g : ComponentGraph) (u v : String) : Prop :=
  ∃ s ∈ g.asbies, s.sourceABIE = u ∧ s.targetABIE = v

/-- A non-empty closed walk under the relation `R`. -/
def CycleIn (R : String → String → Prop) : Prop :=
  ∃ (v : String) (p : List String), p ≠ [] ∧ List.Chain' R (v :: p) ∧
    (v :: p).getLast (List.cons_ne_nil v p) = v

/-- Edge relation of the built adjacency map. -/
def edgeRel (edges : List (String × List String)) (u v : String) : Prop :=
  ∃ vs, alGet edges u = some vs ∧ v ∈ vs

instance (edges : List (String × List String)) (u v : String) :
    Decidable (edgeRel edges u v) :=
  match h : alGet edges u with
  | some vs => decidable_of_iff (v ∈ vs) (by simp [edgeRel, h])
  | none => isFalse (by simp [edgeRel, h])

/-- Number of adjacency entries whose source is alive (not in `dead`) and
which contain `v`: the in-degree of `v` from unprocessed nodes. -/
def inCount (edges : List (String × List String)) (dead : List String) (v : String) : Nat :=
  edges.countP (fun p => decide (p.1 ∉ dead) && decide (v ∈ p.2))

/-- `out` is a topological prefix: every edge into a member of `out` comes
from an earlier member. -/
def TopoPrefix (edges : List (String × List String)) (out : List String) : Prop :=
  ∀ u v, edgeRel edges u v → v ∈ out → u ∈ out ∧ out.indexOf u < out.indexOf v

/-- Invariant of the Kahn queue loop. -/
def KahnInv (edges : List (String × List String)) (indeg : List (String × Int))
    (queue out : List String) : Prop :=
  (edges.map Prod.fst).Nodup ∧
  indeg.map Prod.fst = edges.map Prod.fst ∧
  out.Nodup ∧ queue.Nodup ∧
  (∀ x ∈ out, x ∉ queue) ∧
  (∀ x ∈ out, x ∈ edges.map Prod.fst) ∧
  (∀ x ∈ queue, x ∈ edges.map Prod.fst) ∧
  (∀ u vs, alGet edges u = some vs → vs.Nodup ∧ ∀ v ∈ vs, v ∈ edges.map Prod.fst) ∧
  (∀ v ∈ edges.map Prod.fst, alGet indeg v = some ((inCount edges out v : Nat) : Int)) ∧
  (∀ v ∈ queue, inCount edges out v = 0) ∧
  TopoPrefix edges out ∧
  (∀ x ∈ out, inCount edges out x = 0)

/-- Invariant of the edge-building phase: both maps are keyed by `nodes`,
adjacency lists are duplicate-free lists of nodes, and the in-degree map
counts exactly the adjacency entries containing each node. -/
def BuildInv (nodes : List String)
    (st : List (String × List String) × List (String × Int)) : Prop :=
  st.1.map Prod.fst = nodes ∧ st.2.map Prod.fst = nodes ∧
  (∀ u vs, alGet st.1 u = some vs → vs.Nodup ∧ ∀ v ∈ vs, v ∈ nodes) ∧
  (∀ v ∈ nodes, alGet st.2 v = some ((inCount st.1 [] v : Nat) : Int))

/-- OC payload with a complete root tuple, used for the step-3 theorems. -/
def oc9 : BucketMaps :=
  { ABIE := [("R", [[("Region", "Region.EU"), ("Channel", "Channel.B2B")]])] }

/-! ## Toolkit lemmas -/

theorem py_bind_ok {α β : Type} {a : Py α} {f : α → Py β} {y : β}
    (h : (a >>= f) = .ok y) : ∃ x, a = .ok x ∧ f x = .ok y := by
  cases a with
  | ok x => exact ⟨x, rfl, h⟩
  | error e => simp [Bind.bind, Except.bind] at h

theorem ensure_ok {c : Prop} [Decidable c] {msg : String} (h : ensure c msg = .ok ()) : c := by
  by_cases hc : c
  · exact hc
  · simp [ensure, hc] at h

theorem ensure_ok_of {c : Prop} [Decidable c] (msg : String) (h : c) : ensure c msg = .ok () := by
  simp [ensure, h]

theorem alGet_alSet_self {α : Type} (m : List (String × α)) (k : String) (v : α) :
    alGet (alSet m k v) k = some v := by
  induction m with
  | nil => simp [alSet, alGet]
  | cons p rest ih =>
    by_cases hk : p.1 = k
    · obtain ⟨k', v'⟩ := p; simp only at hk; subst hk; simp [alSet, alGet]
    · obtain ⟨k', v'⟩ := p; simp only at hk; simp [alSet, alGet, hk, ih]

theorem alGet_alSet_ne {α : Type} (m : List (String × α)) (k k' : String) (v : α)
    (h : k' ≠ k) : alGet (alSet m k v) k' = alGet m k' := by
  induction m with
  | nil => simp [alSet, alGet, Ne.symm h]
  | cons p rest ih =>
    by_cases hk : p.1 = k
    · obtain ⟨a, b⟩ := p; simp only at hk; subst hk
      simp [alSet, alGet, Ne.symm h]
    · obtain ⟨a, b⟩ := p; simp only at hk
      simp only [alSet, if_neg hk]
      by_cases ha : a = k'
      · subst ha; simp [alGet]
      · simp [alGet, ha, ih]

theorem alGet_keyed_map {α : Type} (l : List String) (f : String → α) (k : String) :
    alGet (l.map (fun x => (x, f x))) k = if k ∈ l then some (f k) else none := by
  induction l with
  | nil => simp [alGet]
  | cons x xs ih =>
    simp only [List.map_cons, alGet]
    by_cases hx : x = k
    · subst hx; simp
    · rw [if_neg hx, ih]
      by_cases hm : k ∈ xs
      · simp [hm]
      · simp [hm, Ne.symm hx]

theorem mem_dedup_first {α : Type} [DecidableEq α] (seen l : List α) (x : α) :
    x ∈ dedup_first seen l ↔ x ∈ l ∧ x ∉ seen := by
  induction l generalizing seen with
  | nil => simp [dedup_first]
  | cons y ys ih =>
    simp only [dedup_first]
    by_cases hy : y ∈ seen
    · rw [if_pos hy, ih]
      constructor
      · rintro ⟨hm, hs⟩; exact ⟨List.mem_cons_of_mem _ hm, hs⟩
      · rintro ⟨hm, hs⟩
        rcases List.mem_cons.1 hm with rfl | hm
        · exact absurd hy hs
        · exact ⟨hm, hs⟩
    · rw [if_neg hy]
      constructor
      · intro hmem
        rcases List.mem_cons.1 hmem with rfl | hmem
        · exact ⟨List.mem_cons_self _ _, hy⟩
        · obtain ⟨hm, hs⟩ := (ih (y :: seen)).1 hmem
          exact ⟨List.mem_cons_of_mem _ hm, fun hh => hs (List.mem_cons_of_mem _ hh)⟩
      · rintro ⟨hm, hs⟩
        rcases List.mem_cons.1 hm with rfl | hm
        · exact List.mem_cons_self _ _
        · by_cases hx : x = y
          · subst hx; exact List.mem_cons_self _ _
          · refine List.mem_cons_of_mem _ ((ih (y :: seen)).2 ⟨hm, fun hh => ?_⟩)
            rcases List.mem_cons.1 hh with h1 | h2
            · exact hx h1
            · exact hs h2

theorem dedup_first_nodup {α : Type} [DecidableEq α] (seen l : List α) :
    (dedup_first seen l).Nodup := by
  induction l generalizing seen with
  | nil => simp [dedup_first]
  | cons y ys ih =>
    simp only [dedup_first]
    by_cases hy : y ∈ seen
    · rw [if_pos hy]; exact ih seen
    · rw [if_neg hy]
      refine List.Nodup.cons ?_ (ih (y :: seen))
      intro hmem
      exact ((mem_dedup_first _ _ _).1 hmem).2 (List.mem_cons_self _ _)

theorem dedup_first_of_nodup {α : Type} [DecidableEq α] (seen l : List α)
    (hl : l.Nodup) (hs : ∀ x ∈ l, x ∉ seen) : dedup_first seen l = l := by
  induction l generalizing seen with
  | nil => simp [dedup_first]
  | cons y ys ih =>
    simp only [dedup_first, if_neg (hs y (List.mem_cons_self _ _))]
    congr 1
    refine ih (y :: seen) (List.Nodup.of_cons hl) ?_
    intro x hx hmem
    rcases List.mem_cons.1 hmem with rfl | hmem
    · exact (List.nodup_cons.1 hl).1 hx
    · exact hs x (List.mem_cons_of_mem _ hx) hmem

theorem dedup_first_all_seen {α : Type} [DecidableEq α] (seen l : List α)
    (h : ∀ y ∈ l, y ∈ seen) : dedup_first seen l = [] := by
  induction l with
  | nil => rfl
  | cons y ys ih =>
    simp only [dedup_first, if_pos (h y (List.mem_cons_self _ _))]
    exact ih fun z hz => h z (List.mem_cons_of_mem _ hz)

theorem dedup_exact_idem (l : List Tup) :
    dedup_exact_ordered (dedup_exact_ordered l) = dedup_exact_ordered l := by
  unfold dedup_exact_ordered
  exact dedup_first_of_nodup _ _ (dedup_first_nodup _ _) (by simp)

theorem sortStrings_perm (l : List String) : List.Perm (sortStrings l) l :=
  List.perm_insertionSort (fun a b => strLe a b = true) l

theorem mem_sortStrings (l : List String) (x : String) :
    x ∈ sortStrings l ↔ x ∈ l :=
  (sortStrings_perm l).mem_iff

theorem sortStrings_nodup (l : List String) (h : l.Nodup) : (sortStrings l).Nodup :=
  ((sortStrings_perm l).nodup_iff).2 h

/-! ## Claim theorems -/

/-- C7: Scenario A — with the spec's taxonomy, policy and the single assignment
`BBIE.InvoiceID -> [{Region: Region.EU}]`, `run_step1_prefilter` produces exactly
one `kept-multi` log entry with `witnesses=[0,1]`, `fills={Channel: Channel.B2B}`,
`tuplesAfter=[{Region: Region.EU, Channel: Channel.B2B}]`, and a prefiltered list
with exactly one component entry holding that single tuple. -/
theorem claim_C7 : run_step1_prefilter scenA_assignments scenA_policy scenA_tax =
    .ok ⟨[⟨"BBIE.InvoiceID", [[("Region", "Region.EU"), ("Channel", "Channel.B2B")]]⟩],
      [⟨"BBIE.InvoiceID", 0, "kept-multi", [("Channel", "Channel.B2B")], [0, 1],
        [("Region", "Region.EU")],
        [[("Region", "Region.EU"), ("Channel", "Channel.B2B")]], none⟩]⟩ := by decide

theorem dedup_all_empty (l : List Tup) (h : ∀ y ∈ l, y = ([] : Tup)) (hne : l ≠ []) :
    dedup_exact_ordered l = [[]] := by
  cases l with
  | nil => exact absurd rfl hne
  | cons x xs =>
    have hx : x = ([] : Tup) := h x (List.mem_cons_self _ _)
    subst hx
    unfold dedup_exact_ordered
    simp only [dedup_first]
    rw [if_neg (by simp)]
    rw [dedup_first_all_seen]
    intro y hy
    rw [h y (List.mem_cons_of_mem _ hy)]
    exact List.mem_cons_self _ _

theorem project_tuples_no_axes (tuples : List Tup) (h : tuples ≠ []) :
    project_tuples tuples [] = [[]] := by
  unfold project_tuples
  apply dedup_all_empty
  · intro y hy
    obtain ⟨tp, _, rfl⟩ := List.mem_map.1 hy
    simp
  · simpa using h

/-- C10: for a component whose `relevantAxes` is empty (including entries
normalized from a missing `relevantAxes`), whenever both full EC sets are
non-empty, `classify_component` returns `SEAMLESS` with `EC_common_on_KCD`
equal to the one-element list containing the empty tuple. -/
theorem claim_C10 :
    (∀ ecS ecT : List Tup, ecS ≠ [] → ecT ≠ [] →
      classify_component ecS ecT [] = ("SEAMLESS", [([] : Tup)], [([] : Tup)], [([] : Tup)])) ∧
    (∀ (cfg : MappingConfig) (cid : String) (e : CatEntry),
      (cid, e) ∈ cfg.bie_catalog → e.relevantAxes = none →
      (cid, { e with relevantAxes := some [] }) ∈ (normalize_mapping_config cfg).bie_catalog) := by
  constructor
  · intro ecS ecT hS hT
    unfold classify_component
    rw [project_tuples_no_axes ecS hS, project_tuples_no_axes ecT hT]
    simp [intersect_projected, dedup_exact_ordered, dedup_first]
  · intro cfg cid e hmem hax
    unfold normalize_mapping_config
    simp only [List.mem_map]
    exact ⟨(cid, e), hmem, by simp [hax]⟩

/-- C10 witness: concrete instantiation of both conjuncts. -/
theorem claim_C10_witness :
    classify_component [[("Region", "Region.EU")]] [[("Channel", "Channel.B2B")]] [] =
      ("SEAMLESS", [([] : Tup)], [([] : Tup)], [([] : Tup)]) ∧
    ("BBIE.X", ({ anchor := "a", relevantAxes := some [] } : CatEntry)) ∈
      (normalize_mapping_config
        ⟨[], [("BBIE.X", { anchor := "a", relevantAxes := none })], ⟨[], []⟩⟩).bie_catalog :=
  ⟨claim_C10.1 _ _ (by decide) (by decide),
   claim_C10.2 ⟨[], [("BBIE.X", { anchor := "a", relevantAxes := none })], ⟨[], []⟩⟩
     "BBIE.X" { anchor := "a", relevantAxes := none } (by decide) rfl⟩

theorem step4_build_abie_ids (ecAbie : List (String × List Tup)) (g : ComponentGraph) :
    ∀ (l : List String) (r : List AbieInclude),
    step4_build_abie ecAbie g l = .ok r → ∀ x ∈ r, x.id ∈ l := by
  intro l
  induction l with
  | nil =>
    intro r h x hx
    simp only [step4_build_abie, Except.ok.injEq] at h
    subst h
    simp at hx
  | cons i rest ih =>
    intro r h x hx
    simp only [step4_build_abie] at h
    by_cases hd : (dict_by_id g.abies Abie.id i).isSome
    · rw [if_pos hd] at h
      obtain ⟨v, hv, h⟩ := py_bind_ok h
      obtain ⟨rr, hrr, h⟩ := py_bind_ok h
      simp only [Except.ok.injEq] at h
      subst h
      rcases List.mem_cons.1 hx with rfl | hx
      · exact List.mem_cons_self _ _
      · exact List.mem_cons_of_mem _ (ih rr hrr x hx)
    · rw [if_neg hd] at h
      exact List.mem_cons_of_mem _ (ih r h x hx)

/-- C4: whenever `run_step4_profile_schema` returns a profile schema,
`isRealizable` is true exactly when the EC entry for `rootABIE` is a non-empty
list, and when it is false the root is absent from `includes.ABIE`. -/
theorem claim_C4 (ec : BucketMaps) (g : ComponentGraph) (iuc : Iuc) (out : ProfileSchema)
    (h : run_step4_profile_schema ec g iuc = .ok out) :
    (out.isRealizable = true ↔ (alGet ec.ABIE g.rootABIE).getD [] ≠ []) ∧
    (out.isRealizable = false → g.rootABIE ∉ out.includesABIE.map AbieInclude.id) := by
  simp only [run_step4_profile_schema, bind, Except.bind] at h
  cases hv : validate_component_graph g with
  | error e => rw [hv] at h; exact absurd h (by simp)
  | ok u =>
    rw [hv] at h
    dsimp only at h
    cases hcl : step4_closure g ec.ABIE
        (dedup_first [] ((ec.ABIE.filter (fun p => !p.2.isEmpty)).map Prod.fst))
        (sortStrings (dedup_first [] ((ec.ASBIE.filter (fun p => !p.2.isEmpty)).map Prod.fst)))
        with
    | error e => rw [hcl] at h; exact absurd h (by simp)
    | ok includedAbie1 =>
      rw [hcl] at h
      dsimp only at h
      cases ha : step4_build_abie ec.ABIE g
          (sortStrings (if !((alGet ec.ABIE g.rootABIE).getD []).isEmpty then includedAbie1
            else includedAbie1.filter (· ≠ g.rootABIE))) with
      | error e => rw [ha] at h; exact absurd h (by simp)
      | ok incA =>
        rw [ha] at h
        dsimp only at h
        cases hs : step4_build_asbie ec.ASBIE g
            (sortStrings (dedup_first []
              ((ec.ASBIE.filter (fun p => !p.2.isEmpty)).map Prod.fst))) with
        | error e => rw [hs] at h; exact absurd h (by simp)
        | ok incS =>
          rw [hs] at h
          dsimp only at h
          cases hb : step4_build_bbie ec.BBIE g
              (sortStrings (dedup_first []
                ((ec.BBIE.filter (fun p => !p.2.isEmpty)).map Prod.fst))) with
          | error e => rw [hb] at h; exact absurd h (by simp)
          | ok incB =>
            rw [hb] at h
            dsimp only at h
            simp only [Except.ok.injEq] at h
            subst h
            constructor
            · simp [List.isEmpty_iff]
            · intro hfalse
              rw [Bool.not_eq_false'] at hfalse
              rw [List.isEmpty_iff] at hfalse
              rw [if_neg (by simp [hfalse])] at ha
              intro hmem
              simp only [List.mem_map] at hmem
              obtain ⟨x, hx, hxid⟩ := hmem
              have := step4_build_abie_ids _ _ _ _ ha x hx
              rw [hxid] at this
              rw [mem_sortStrings] at this
              have := List.of_mem_filter this
              simp at this

/-- C4 witness: the theorem applied to a concrete successful step-4 run. -/
theorem claim_C4_witness :
    (step4out9.isRealizable = true ↔ (alGet ec9.ABIE g9.rootABIE).getD [] ≠ []) ∧
    (step4out9.isRealizable = false → g9.rootABIE ∉ step4out9.includesABIE.map AbieInclude.id) :=
  claim_C4 ec9 g9 ⟨"I", []⟩ step4out9 (by decide)

theorem collapse_drop_check_false_iff (t : Taxonomy) (cand : Tup) (l : List Tup) :
    collapse_drop_check t cand l = .ok false ↔
      ∀ o ∈ l, o ≠ cand → is_descendant_on_all_keys cand o t = .ok false := by
  induction l with
  | nil => simp [collapse_drop_check]
  | cons o rest ih =>
    simp only [collapse_drop_check]
    by_cases ho : cand = o
    · rw [if_pos ho, ih]
      subst ho
      constructor
      · intro hall p hp hpne
        rcases List.mem_cons.1 hp with rfl | hp
        · exact absurd rfl hpne
        · exact hall p hp hpne
      · intro hall p hp hpne
        exact hall p (List.mem_cons_of_mem _ hp) hpne
    · rw [if_neg ho]
      cases hdesc : is_descendant_on_all_keys cand o t with
      | error e =>
        simp only [Bind.bind, Except.bind]
        constructor
        · intro hcontr; exact absurd hcontr (by simp)
        · intro hall
          have := hall o (List.mem_cons_self _ _) (fun hh => ho hh.symm)
          rw [hdesc] at this
          exact absurd this (by simp)
      | ok b =>
        simp only [Bind.bind, Except.bind]
        cases b with
        | true =>
          simp only [if_pos rfl]
          constructor
          · intro hcontr
            exact absurd (Except.ok.inj hcontr) (by simp)
          · intro hall
            have := hall o (List.mem_cons_self _ _) (fun hh => ho hh.symm)
            rw [hdesc] at this
            exact absurd (Except.ok.inj this) (by simp)
        | false =>
          simp only [Bool.false_eq_true, if_neg (by simp : ¬False), ih]
          constructor
          · intro hall p hp hpne
            rcases List.mem_cons.1 hp with rfl | hp
            · exact hdesc
            · exact hall p hp hpne
          · intro hall p hp hpne
            exact hall p (List.mem_cons_of_mem _ hp) hpne

theorem collapse_go_ok_mem (t : Taxonomy) (d : List Tup) :
    ∀ (l out : List Tup), collapse_go t d l = .ok out →
    ∀ c ∈ out, c ∈ l ∧ collapse_drop_check t c d = .ok false := by
  intro l
  induction l with
  | nil =>
    intro out h c hc
    simp only [collapse_go, Except.ok.injEq] at h
    subst h
    simp at hc
  | cons x rest ih =>
    intro out h c hc
    simp only [collapse_go] at h
    obtain ⟨b, hb, h⟩ := py_bind_ok h
    obtain ⟨out', hout', h⟩ := py_bind_ok h
    simp only [Except.ok.injEq] at h
    cases b with
    | true =>
      subst h
      obtain ⟨hm, hd⟩ := ih out' hout' c (by simpa using hc)
      exact ⟨List.mem_cons_of_mem _ hm, hd⟩
    | false =>
      simp only [Bool.false_eq_true, if_neg (by simp : ¬False)] at h
      subst h
      rcases List.mem_cons.1 hc with rfl | hc
      · exact ⟨List.mem_cons_self _ _, hb⟩
      · obtain ⟨hm, hd⟩ := ih out' hout' c hc
        exact ⟨List.mem_cons_of_mem _ hm, hd⟩

theorem collapse_go_sublist (t : Taxonomy) (d : List Tup) :
    ∀ (l out : List Tup), collapse_go t d l = .ok out → out.Sublist l := by
  intro l
  induction l with
  | nil =>
    intro out h
    simp only [collapse_go, Except.ok.injEq] at h
    subst h
    exact List.Sublist.refl _
  | cons x rest ih =>
    intro out h
    simp only [collapse_go] at h
    obtain ⟨b, hb, h⟩ := py_bind_ok h
    obtain ⟨out', hout', h⟩ := py_bind_ok h
    simp only [Except.ok.injEq] at h
    cases b with
    | true =>
      subst h
      exact (ih out' hout').cons x
    | false =>
      simp only [Bool.false_eq_true, if_neg (by simp : ¬False)] at h
      subst h
      exact (ih out' hout').cons₂ x

theorem collapse_go_id (t : Taxonomy) (d : List Tup) :
    ∀ l : List Tup, (∀ c ∈ l, collapse_drop_check t c d = .ok false) →
    collapse_go t d l = .ok l := by
  intro l
  induction l with
  | nil => intro _; rfl
  | cons x rest ih =>
    intro hall
    simp only [collapse_go]
    rw [hall x (List.mem_cons_self _ _)]
    rw [ih (fun c hc => hall c (List.mem_cons_of_mem _ hc))]
    simp [Bind.bind, Except.bind]

/-- C6: exact dedup and ancestor-preferred collapse are idempotent; a second
application to an output returns the output unchanged. -/
theorem claim_C6 :
    (∀ l : List Tup, dedup_exact_ordered (dedup_exact_ordered l) = dedup_exact_ordered l) ∧
    (∀ (t : Taxonomy) (l out : List Tup), collapse_ancestor_preferred l t = .ok out →
      collapse_ancestor_preferred out t = .ok out) := by
  refine ⟨dedup_exact_idem, ?_⟩
  intro t l out h
  unfold collapse_ancestor_preferred at h ⊢
  have hsub : out.Sublist (dedup_exact_ordered l) := collapse_go_sublist _ _ _ _ h
  have hnodup : out.Nodup := (dedup_first_nodup [] l).sublist hsub
  have hded : dedup_exact_ordered out = out :=
    dedup_first_of_nodup _ _ hnodup (by simp)
  rw [hded]
  apply collapse_go_id
  intro c hc
  have hmem := collapse_go_ok_mem t _ _ _ h c hc
  rw [collapse_drop_check_false_iff] at hmem ⊢
  intro o ho hone
  exact hmem.2 o (hsub.subset ho) hone

/-- C6 witness: both conjuncts at concrete inputs (a strict-descendant pair). -/
theorem claim_C6_witness :
    dedup_exact_ordered (dedup_exact_ordered
      [[("Region", "Region.EU")], [("Region", "Region.EU")]]) =
      dedup_exact_ordered [[("Region", "Region.EU")], [("Region", "Region.EU")]] ∧
    collapse_ancestor_preferred
      [[("Region", "Region.EU"), ("Channel", "Channel.B2B")],
       [("Region", "Region.EU.DE"), ("Channel", "Channel.B2B")]] scenA_tax =
      .ok [[("Region", "Region.EU"), ("Channel", "Channel.B2B")]] ∧
    collapse_ancestor_preferred [[("Region", "Region.EU"), ("Channel", "Channel.B2B")]]
      scenA_tax = .ok [[("Region", "Region.EU"), ("Channel", "Channel.B2B")]] :=
  ⟨claim_C6.1 _, by decide,
   claim_C6.2 scenA_tax
     [[("Region", "Region.EU"), ("Channel", "Channel.B2B")],
      [("Region", "Region.EU.DE"), ("Channel", "Channel.B2B")]]
     [[("Region", "Region.EU"), ("Channel", "Channel.B2B")]] (by decide)⟩

theorem alGet_mem_keys {α : Type} (m : List (String × α)) (k : String) (v : α)
    (h : alGet m k = some v) : k ∈ m.map Prod.fst := by
  induction m with
  | nil => simp [alGet] at h
  | cons p rest ih =>
    by_cases hk : p.1 = k
    · simp [hk]
    · obtain ⟨a, b⟩ := p
      simp only at hk
      simp only [alGet, if_neg hk] at h
      exact List.mem_cons_of_mem _ (ih h)

theorem classify_empty_proj (s t : List Tup) (axes : List String)
    (h : project_tuples s axes = [] ∨ project_tuples t axes = []) :
    (classify_component s t axes).1 = "NO_MAPPING" := by
  unfold classify_component
  rw [if_pos]
  rcases h with h | h
  · exact Or.inl (by rw [h]; rfl)
  · exact Or.inr (by rw [h]; rfl)

theorem classify_nonempty_proj (s t : List Tup) (axes : List String)
    (hs : project_tuples s axes ≠ []) (ht : project_tuples t axes ≠ []) :
    (classify_component s t axes).1 =
      (if intersect_projected (project_tuples s axes) (project_tuples t axes) ≠ []
        then "SEAMLESS" else "CONTEXTUAL_TRANSFORM") ∧
    (classify_component s t axes).1 ≠ "NO_MAPPING" := by
  unfold classify_component
  rw [if_neg (by
    push_neg
    exact ⟨fun hh => hs (List.length_eq_zero.1 hh), fun hh => ht (List.length_eq_zero.1 hh)⟩)]
  by_cases hc : intersect_projected (project_tuples s axes) (project_tuples t axes) = []
  · rw [if_neg (by rw [hc]; simp), if_neg (by simp [hc])]
    exact ⟨rfl, by intro hh; simp at hh⟩
  · rw [if_pos (List.length_pos.2 hc), if_pos hc]
    exact ⟨rfl, by intro hh; simp at hh⟩

theorem mra_step_spec (S T : BucketMaps) (cat : List (String × CatEntry))
    (paths : SchemaPaths) (cid : String) :
    ∀ m ∈ mra_step S T cat paths cid, m.componentId = cid ∧ m.decision ≠ "NO_MAPPING" := by
  intro m hm
  unfold mra_step at hm
  by_cases h0 : (component_ec S cid).length = 0 ∨ (component_ec T cid).length = 0
  · rw [if_pos h0] at hm; simp at hm
  · rw [if_neg h0] at hm
    cases hcat : alGet cat cid with
    | none => rw [hcat] at hm; simp at hm
    | some entry =>
      rw [hcat] at hm
      dsimp only at hm
      by_cases hr : (classify_component (component_ec S cid) (component_ec T cid)
          (entry.relevantAxes.getD [])).1 = "NO_MAPPING"
      · rw [if_pos hr] at hm; simp at hm
      · rw [if_neg hr] at hm
        simp only [List.mem_singleton] at hm
        subst hm
        exact ⟨rfl, hr⟩

theorem mem_pair_mras_go (S T : BucketMaps) (cat : List (String × CatEntry))
    (paths : SchemaPaths) :
    ∀ (keys : List String) (m : Mra), m ∈ pair_mras_go S T cat paths keys →
    ∃ cid ∈ keys, m ∈ mra_step S T cat paths cid := by
  intro keys
  induction keys with
  | nil => intro m hm; simp [pair_mras_go] at hm
  | cons k rest ih =>
    intro m hm
    simp only [pair_mras_go, List.mem_append] at hm
    rcases hm with hm | hm
    · exact ⟨k, List.mem_cons_self _ _, hm⟩
    · obtain ⟨cid, hc, hs⟩ := ih m hm
      exact ⟨cid, List.mem_cons_of_mem _ hc, hs⟩

theorem filter_pair_mras_go (S T : BucketMaps) (cat : List (String × CatEntry))
    (paths : SchemaPaths) :
    ∀ (keys : List String), keys.Nodup → ∀ cid : String,
    (pair_mras_go S T cat paths keys).filter (fun m => m.componentId == cid) =
      if cid ∈ keys then mra_step S T cat paths cid else [] := by
  intro keys
  induction keys with
  | nil => intro _ cid; simp [pair_mras_go]
  | cons k rest ih =>
    intro hnd cid
    simp only [pair_mras_go, List.filter_append]
    by_cases hk : k = cid
    · subst hk
      have h1 : (mra_step S T cat paths k).filter (fun m => m.componentId == k) =
          mra_step S T cat paths k := by
        rw [List.filter_eq_self]
        intro m hm
        rw [(mra_step_spec S T cat paths k m hm).1]
        simp
      rw [h1, ih (List.Nodup.of_cons hnd) k, if_neg (List.nodup_cons.1 hnd).1,
        if_pos (List.mem_cons_self _ _)]
      simp
    · have h1 : (mra_step S T cat paths k).filter (fun m => m.componentId == cid) = [] := by
        rw [List.filter_eq_nil_iff]
        intro m hm
        rw [(mra_step_spec S T cat paths k m hm).1]
        simp [hk]
      rw [h1, ih (List.Nodup.of_cons hnd) cid]
      by_cases hm : cid ∈ rest
      · simp [hm]
      · simp only [hm, List.nil_append, if_neg hm, List.mem_cons, if_neg]
        simp [hm]
        intro hh
        exact absurd hh.symm hk

/-- C3: for a profile pair, no emitted MRA carries `NO_MAPPING`; and for every
catalog component whose full source and target EC sets are non-empty, an empty
KCD projection yields no MRA, while non-empty projections yield exactly one MRA
whose decision is `SEAMLESS` iff the exact intersection of the projections is
non-empty (`CONTEXTUAL_TRANSFORM` otherwise).  `run_mapping_pipeline` emits
`pair_mras` for every configured pair. -/
theorem claim_C3 (S T : BucketMaps) (cat : List (String × CatEntry)) (paths : SchemaPaths) :
    (∀ m ∈ pair_mras S T cat paths, m.decision ≠ "NO_MAPPING") ∧
    (∀ (cid : String) (entry : CatEntry), alGet cat cid = some entry →
      component_ec S cid ≠ [] → component_ec T cid ≠ [] →
      ((project_tuples (component_ec S cid) (entry.relevantAxes.getD []) = [] ∨
        project_tuples (component_ec T cid) (entry.relevantAxes.getD []) = []) →
        (pair_mras S T cat paths).filter (fun m => m.componentId == cid) = []) ∧
      (project_tuples (component_ec S cid) (entry.relevantAxes.getD []) ≠ [] →
       project_tuples (component_ec T cid) (entry.relevantAxes.getD []) ≠ [] →
       ∃ m, (pair_mras S T cat paths).filter (fun m => m.componentId == cid) = [m] ∧
         m.decision = (if intersect_projected
             (project_tuples (component_ec S cid) (entry.relevantAxes.getD []))
             (project_tuples (component_ec T cid) (entry.relevantAxes.getD [])) ≠ []
           then "SEAMLESS" else "CONTEXTUAL_TRANSFORM"))) := by
  constructor
  · intro m hm
    obtain ⟨cid, _, hstep⟩ := mem_pair_mras_go S T cat paths _ m hm
    exact (mra_step_spec S T cat paths cid m hstep).2
  · intro cid entry hget hS hT
    have hmemkeys : cid ∈ sortStrings (dedup_first [] (cat.map Prod.fst)) := by
      rw [mem_sortStrings, mem_dedup_first]
      exact ⟨alGet_mem_keys _ _ _ hget, by simp⟩
    have hnd := sortStrings_nodup _ (dedup_first_nodup [] (cat.map Prod.fst))
    have hfilter := filter_pair_mras_go S T cat paths _ hnd cid
    rw [if_pos hmemkeys] at hfilter
    have hlen : ¬((component_ec S cid).length = 0 ∨ (component_ec T cid).length = 0) := by
      push_neg
      exact ⟨fun hh => hS (List.length_eq_zero.1 hh), fun hh => hT (List.length_eq_zero.1 hh)⟩
    constructor
    · intro hproj
      unfold pair_mras
      rw [hfilter]
      unfold mra_step
      rw [if_neg hlen, hget]
      dsimp only
      rw [if_pos (classify_empty_proj _ _ _ hproj)]
    · intro hpS hpT
      have hcl := classify_nonempty_proj (component_ec S cid) (component_ec T cid)
        (entry.relevantAxes.getD []) hpS hpT
      unfold pair_mras
      rw [hfilter]
      unfold mra_step
      rw [if_neg hlen, hget]
      dsimp only
      rw [if_neg hcl.2]
      exact ⟨_, rfl, hcl.1⟩

/-- C3 witness: Scenario E with axes `[Region]` — exactly one MRA, decision
`SEAMLESS`. -/
theorem claim_C3_witness :
    ∃ m, (pair_mras mapS mapT mapCat ⟨[], []⟩).filter
        (fun m => m.componentId == "BBIE.InvoiceID") = [m] ∧
      m.decision = (if intersect_projected
          (project_tuples (component_ec mapS "BBIE.InvoiceID") ["Region"])
          (project_tuples (component_ec mapT "BBIE.InvoiceID") ["Region"]) ≠ []
        then "SEAMLESS" else "CONTEXTUAL_TRANSFORM") := by
  have h := ((claim_C3 mapS mapT mapCat ⟨[], []⟩).2 "BBIE.InvoiceID"
    { anchor := "InvoiceID", relevantAxes := some ["Region"] }
    (by decide) (by decide) (by decide)).2 (by decide) (by decide)
  simpa using h

theorem step1_witness_loop_eq (t : Taxonomy) (p : Policy) (normalized : Tup) :
    ∀ (legals : List Tup) (idx : Nat) (ws : List Nat) (ns : List Tup),
    step1_witness_loop t p normalized idx legals = .ok (ws, ns) →
    ws = step1_expected_witnesses t p normalized idx legals := by
  intro legals
  induction legals with
  | nil =>
    intro idx ws ns h
    simp only [step1_witness_loop, Except.ok.injEq, Prod.mk.injEq] at h
    rw [← h.1]
    rfl
  | cons legal rest ih =>
    intro idx ws ns h
    simp only [step1_witness_loop] at h
    obtain ⟨matched, hmatch, h⟩ := py_bind_ok h
    simp only [step1_expected_witnesses]
    cases matched with
    | false =>
      rw [if_neg (by simp)] at h
      rw [ih (idx + 1) ws ns h, if_neg]
      simp [policy_matched, hmatch]
    | true =>
      rw [if_pos rfl] at h
      obtain ⟨nt, hnt, h⟩ := py_bind_ok h
      obtain ⟨⟨ws', ns'⟩, hl, h⟩ := py_bind_ok h
      cases nt with
      | some tup =>
        simp only [Except.ok.injEq, Prod.mk.injEq] at h
        rw [← h.1, if_pos]
        · rw [ih (idx + 1) ws' ns' hl]
        · simp [policy_matched, hmatch, narrow_defined, hnt]
      | none =>
        simp only [Except.ok.injEq, Prod.mk.injEq] at h
        rw [← h.1, if_neg]
        · exact ih (idx + 1) ws' ns' hl
        · simp [narrow_defined, hnt]

theorem step1_witness_loop_no_match (t : Taxonomy) (p : Policy) (normalized : Tup) :
    ∀ (legals : List Tup) (idx : Nat) (ws : List Nat) (ns : List Tup),
    (∀ legal ∈ legals, policy_matched t p normalized legal = false) →
    step1_witness_loop t p normalized idx legals = .ok (ws, ns) →
    ws = [] ∧ ns = [] := by
  intro legals
  induction legals with
  | nil =>
    intro idx ws ns _ h
    simp only [step1_witness_loop, Except.ok.injEq, Prod.mk.injEq] at h
    exact ⟨h.1.symm, h.2.symm⟩
  | cons legal rest ih =>
    intro idx ws ns hall h
    simp only [step1_witness_loop] at h
    obtain ⟨matched, hmatch, h⟩ := py_bind_ok h
    cases matched with
    | false =>
      rw [if_neg (by simp)] at h
      exact ih (idx + 1) ws ns (fun lg hlg => hall lg (List.mem_cons_of_mem _ hlg)) h
    | true =>
      have := hall legal (List.mem_cons_self _ _)
      simp [policy_matched, hmatch] at this

theorem expected_mem_iff (t : Taxonomy) (p : Policy) (n : Tup) :
    ∀ (legals : List Tup) (idx i : Nat),
    i ∈ step1_expected_witnesses t p n idx legals ↔
    ∃ j legal, legals[j]? = some legal ∧ i = idx + j ∧
      policy_matched t p n legal = true ∧ narrow_defined t n legal = true := by
  intro legals
  induction legals with
  | nil => intro idx i; simp [step1_expected_witnesses]
  | cons legal rest ih =>
    intro idx i
    simp only [step1_expected_witnesses]
    by_cases hb : (policy_matched t p n legal && narrow_defined t n legal) = true
    · rw [if_pos hb]
      rw [Bool.and_eq_true] at hb
      simp only [List.mem_cons]
      constructor
      · rintro (rfl | hmem)
        · exact ⟨0, legal, by simp, by omega, hb.1, hb.2⟩
        · obtain ⟨j, lg, hg, rfl, hpm, hnd⟩ := (ih (idx + 1) i).1 hmem
          exact ⟨j + 1, lg, by simpa using hg, by omega, hpm, hnd⟩
      · rintro ⟨j, lg, hg, rfl, hpm, hnd⟩
        cases j with
        | zero => left; omega
        | succ j =>
          right
          exact (ih (idx + 1) _).2 ⟨j, lg, by simpa using hg, by omega, hpm, hnd⟩
    · rw [if_neg hb]
      rw [ih (idx + 1) i]
      constructor
      · rintro ⟨j, lg, hg, rfl, hpm, hnd⟩
        exact ⟨j + 1, lg, by simpa using hg, by omega, hpm, hnd⟩
      · rintro ⟨j, lg, hg, rfl, hpm, hnd⟩
        cases j with
        | zero =>
          simp only [List.getElem?_cons_zero, Option.some.injEq] at hg
          subst hg
          exact absurd (by simp [hpm, hnd]) hb
        | succ j => exact ⟨j, lg, by simpa using hg, by omega, hpm, hnd⟩

theorem expected_lb (t : Taxonomy) (p : Policy) (n : Tup) :
    ∀ (legals : List Tup) (idx : Nat),
    ∀ i ∈ step1_expected_witnesses t p n idx legals, idx ≤ i := by
  intro legals
  induction legals with
  | nil => intro idx i hi; simp [step1_expected_witnesses] at hi
  | cons legal rest ih =>
    intro idx i hi
    simp only [step1_expected_witnesses] at hi
    by_cases hb : (policy_matched t p n legal && narrow_defined t n legal) = true
    · rw [if_pos hb] at hi
      rcases List.mem_cons.1 hi with rfl | hi
      · exact le_refl _
      · have := ih (idx + 1) i hi; omega
    · rw [if_neg hb] at hi
      have := ih (idx + 1) i hi; omega

theorem expected_sorted (t : Taxonomy) (p : Policy) (n : Tup) :
    ∀ (legals : List Tup) (idx : Nat),
    List.Sorted (· < ·) (step1_expected_witnesses t p n idx legals) := by
  intro legals
  induction legals with
  | nil => intro idx; simp [step1_expected_witnesses]
  | cons legal rest ih =>
    intro idx
    simp only [step1_expected_witnesses]
    by_cases hb : (policy_matched t p n legal && narrow_defined t n legal) = true
    · rw [if_pos hb]
      refine List.sorted_cons.2 ⟨?_, ih (idx + 1)⟩
      intro b hb'
      have := expected_lb t p n rest (idx + 1) b hb'
      omega
    · rw [if_neg hb]
      exact ih (idx + 1)

/-- C2 (amended): for a successfully normalized assignment tuple, a kept-multi
log entry's `witnesses` are exactly the indices, in increasing order, of the
legal tuples whose token meet with the normalized tuple is defined on every
policy key AND whose full-tuple meet over all taxonomy keys is defined; a
normalized tuple with no policy-key match is dropped with reason
`no-legal-match` and `witnesses=[]`. -/
theorem claim_C2 (t : Taxonomy) (p : Policy) (cid : String) (tidx : Nat) (tb : Tup)
    (normalized fills : Tup)
    (hnorm : normalize_tuple tb t = (normalized, fills, none))
    (entry : LogEntry) (narrowed : List Tup)
    (hrun : step1_process_tuple t p cid tidx tb = .ok (entry, narrowed)) :
    (narrowed ≠ [] →
      entry.action = "kept-multi" ∧
      entry.witnesses = step1_expected_witnesses t p normalized 0 p.legalTuples ∧
      (∀ i : Nat, i ∈ entry.witnesses ↔ ∃ legal, p.legalTuples[i]? = some legal ∧
        policy_matched t p normalized legal = true ∧
        narrow_defined t normalized legal = true) ∧
      List.Sorted (· < ·) entry.witnesses) ∧
    ((∀ legal ∈ p.legalTuples, policy_matched t p normalized legal = false) →
      entry.action = "dropped" ∧ entry.reason = some "no-legal-match" ∧
      entry.witnesses = []) := by
  unfold step1_process_tuple at hrun
  rw [hnorm] at hrun
  dsimp only at hrun
  obtain ⟨⟨ws, ns⟩, hloop, hrun⟩ := py_bind_ok hrun
  by_cases hempty : (dedup_exact_ordered ns).isEmpty = true
  · rw [if_pos hempty] at hrun
    simp only [Except.ok.injEq, Prod.mk.injEq] at hrun
    obtain ⟨he, hn⟩ := hrun
    subst he
    subst hn
    constructor
    · intro hne; exact absurd rfl hne
    · intro _; exact ⟨rfl, rfl, rfl⟩
  · rw [if_neg hempty] at hrun
    simp only [Except.ok.injEq, Prod.mk.injEq] at hrun
    obtain ⟨he, hn⟩ := hrun
    subst he
    have hw : ws = step1_expected_witnesses t p normalized 0 p.legalTuples :=
      step1_witness_loop_eq t p normalized p.legalTuples 0 ws ns hloop
    constructor
    · intro _
      refine ⟨rfl, hw, ?_, ?_⟩
      · intro i
        show i ∈ ws ↔ _
        rw [hw, expected_mem_iff]
        constructor
        · rintro ⟨j, lg, hg, rfl, hpm, hnd⟩
          simpa using ⟨lg, hg, hpm, hnd⟩
        · rintro ⟨lg, hg, hpm, hnd⟩
          exact ⟨i, lg, hg, by omega, hpm, hnd⟩
      · show List.Sorted _ ws
        rw [hw]
        exact expected_sorted t p normalized p.legalTuples 0
    · intro hall
      have hempty2 := step1_witness_loop_no_match t p normalized p.legalTuples 0 ws ns hall hloop
      rw [hempty2.2] at hempty
      exact absurd rfl hempty

/-- C2 counterexample: the original claim fails — legal tuple 0 token-meets the
normalized tuple on every policy key, yet the kept-multi entry's witnesses are
`[1]`, because tuple 0's full-tuple meet is undefined on the non-policy key
`Channel`. -/
theorem claim_C2_counterexample :
    run_step1_prefilter
      [⟨"BBIE.X", [[("Region", "Region.EU"), ("Channel", "Channel.B2B")]]⟩]
      c2_policy scenA_tax =
      .ok ⟨[⟨"BBIE.X", [[("Region", "Region.EU"), ("Channel", "Channel.B2B")]]⟩],
        [⟨"BBIE.X", 0, "kept-multi", [], [1],
          [("Region", "Region.EU"), ("Channel", "Channel.B2B")],
          [[("Region", "Region.EU"), ("Channel", "Channel.B2B")]], none⟩]⟩ ∧
    normalize_tuple [("Region", "Region.EU"), ("Channel", "Channel.B2B")] scenA_tax =
      ([("Region", "Region.EU"), ("Channel", "Channel.B2B")], [], none) ∧
    step1_match_policy scenA_tax
      [("Region", "Region.EU"), ("Channel", "Channel.B2B")]
      [("Region", "Region.EU"), ("Channel", "Channel.B2C")] c2_policy.policyKeys = .ok true ∧
    (0 : Nat) ∉ [1] := by decide

/-- C2 witness: the amended theorem applied to Scenario A's assignment tuple. -/
theorem claim_C2_witness :
    (([[("Region", "Region.EU"), ("Channel", "Channel.B2B")]] : List Tup) ≠ [] →
      (⟨"BBIE.InvoiceID", 0, "kept-multi", [("Channel", "Channel.B2B")], [0, 1],
        [("Region", "Region.EU")],
        [[("Region", "Region.EU"), ("Channel", "Channel.B2B")]], none⟩ : LogEntry).action =
          "kept-multi" ∧
      (⟨"BBIE.InvoiceID", 0, "kept-multi", [("Channel", "Channel.B2B")], [0, 1],
        [("Region", "Region.EU")],
        [[("Region", "Region.EU"), ("Channel", "Channel.B2B")]], none⟩ : LogEntry).witnesses =
        step1_expected_witnesses scenA_tax scenA_policy
          [("Region", "Region.EU"), ("Channel", "Channel.B2B")] 0 scenA_policy.legalTuples ∧
      (∀ i : Nat, i ∈ (⟨"BBIE.InvoiceID", 0, "kept-multi", [("Channel", "Channel.B2B")], [0, 1],
        [("Region", "Region.EU")],
        [[("Region", "Region.EU"), ("Channel", "Channel.B2B")]], none⟩ : LogEntry).witnesses ↔
        ∃ legal, scenA_policy.legalTuples[i]? = some legal ∧
          policy_matched scenA_tax scenA_policy
            [("Region", "Region.EU"), ("Channel", "Channel.B2B")] legal = true ∧
          narrow_defined scenA_tax
            [("Region", "Region.EU"), ("Channel", "Channel.B2B")] legal = true) ∧
      List.Sorted (· < ·) (⟨"BBIE.InvoiceID", 0, "kept-multi", [("Channel", "Channel.B2B")],
        [0, 1], [("Region", "Region.EU")],
        [[("Region", "Region.EU"), ("Channel", "Channel.B2B")]], none⟩ : LogEntry).witnesses) ∧
    ((∀ legal ∈ scenA_policy.legalTuples,
        policy_matched scenA_tax scenA_policy
          [("Region", "Region.EU"), ("Channel", "Channel.B2B")] legal = false) →
      (⟨"BBIE.InvoiceID", 0, "kept-multi", [("Channel", "Channel.B2B")], [0, 1],
        [("Region", "Region.EU")],
        [[("Region", "Region.EU"), ("Channel", "Channel.B2B")]], none⟩ : LogEntry).action =
        "dropped" ∧
      (⟨"BBIE.InvoiceID", 0, "kept-multi", [("Channel", "Channel.B2B")], [0, 1],
        [("Region", "Region.EU")],
        [[("Region", "Region.EU"), ("Channel", "Channel.B2B")]], none⟩ : LogEntry).reason =
        some "no-legal-match" ∧
      (⟨"BBIE.InvoiceID", 0, "kept-multi", [("Channel", "Channel.B2B")], [0, 1],
        [("Region", "Region.EU")],
        [[("Region", "Region.EU"), ("Channel", "Channel.B2B")]], none⟩ : LogEntry).witnesses =
        []) :=
  claim_C2 scenA_tax scenA_policy "BBIE.InvoiceID" 0 [("Region", "Region.EU")]
    [("Region", "Region.EU"), ("Channel", "Channel.B2B")] [("Channel", "Channel.B2B")]
    (by decide) _ [[("Region", "Region.EU"), ("Channel", "Channel.B2B")]] (by decide)

theorem alGet_bucket_extend_self (m : List (String × List Tup)) (c : String) (ts : List Tup) :
    alGet (bucket_extend m c ts) c = some ((alGet m c).getD [] ++ ts) :=
  alGet_alSet_self m c _

theorem alGet_bucket_extend_ne (m : List (String × List Tup)) (c c' : String) (ts : List Tup)
    (h : c' ≠ c) : alGet (bucket_extend m c ts) c' = alGet m c' :=
  alGet_alSet_ne m c c' _ h

theorem step2_pref_map_go_lookup (cid : String) :
    ∀ (l : List CompTuples) (m : List (String × List Tup)),
    alGet (step2_pref_map_go m l) cid =
      match alGet m cid with
      | some v => some (v ++ prefiltered_tuples_for l cid)
      | none =>
        if cid ∈ l.map CompTuples.componentId then some (prefiltered_tuples_for l cid)
        else none := by
  intro l
  induction l with
  | nil =>
    intro m
    simp only [step2_pref_map_go, prefiltered_tuples_for, List.filter_nil, List.map_nil,
      List.flatten]
    cases alGet m cid with
    | some v => simp
    | none => simp
  | cons e rest ih =>
    intro m
    simp only [step2_pref_map_go]
    rw [ih]
    by_cases hc : e.componentId = cid
    · rw [show alGet (bucket_extend m e.componentId e.tuples) cid =
          some ((alGet m cid).getD [] ++ e.tuples) from hc ▸ alGet_bucket_extend_self m _ _]
      have hfil : prefiltered_tuples_for (e :: rest) cid =
          e.tuples ++ prefiltered_tuples_for rest cid := by
        simp [prefiltered_tuples_for, List.filter_cons, hc]
      cases hm : alGet m cid with
      | some v => simp [hfil, hm]
      | none =>
        simp only [hfil, hm, Option.getD_none, List.nil_append, List.map_cons]
        rw [if_pos (List.mem_cons.2 (Or.inl hc.symm))]
    · rw [alGet_bucket_extend_ne m _ _ _ (fun hh => hc hh.symm)]
      have hfil : prefiltered_tuples_for (e :: rest) cid = prefiltered_tuples_for rest cid := by
        simp [prefiltered_tuples_for, List.filter_cons, hc]
      have hmem : (cid ∈ (e :: rest).map CompTuples.componentId) ↔
          (cid ∈ rest.map CompTuples.componentId) := by
        simp only [List.map_cons, List.mem_cons]
        constructor
        · rintro (rfl | hh)
          · exact absurd rfl hc
          · exact hh
        · exact Or.inr
      cases alGet m cid with
      | some v => simp [hfil]
      | none =>
        by_cases hmm : cid ∈ rest.map CompTuples.componentId
        · simp [hfil, hmm, hmem.2 hmm]
        · simp only [hfil]
          rw [if_neg hmm, if_neg (fun hh => hmm (hmem.1 hh))]

theorem alGet_map_snd {α β : Type} (f : α → β) :
    ∀ (m : List (String × α)) (k : String),
    alGet (m.map (fun p => (p.1, f p.2))) k = (alGet m k).map f := by
  intro m
  induction m with
  | nil => intro k; simp [alGet]
  | cons p rest ih =>
    intro k
    by_cases hk : p.1 = k
    · simp [alGet, hk]
    · simp [alGet, hk, ih]

theorem step2_pref_map_lookup (prefiltered : List CompTuples) (cid : String) :
    alGet (step2_pref_map prefiltered) cid =
      if cid ∈ prefiltered.map CompTuples.componentId then
        some (dedup_exact_ordered (prefiltered_tuples_for prefiltered cid))
      else none := by
  unfold step2_pref_map
  rw [alGet_map_snd, step2_pref_map_go_lookup]
  simp only [alGet]
  by_cases hm : cid ∈ prefiltered.map CompTuples.componentId
  · simp [hm]
  · simp [hm]

/-- C5 (amended): whenever `run_step2_oc` returns an OC, the BBIE map sends
every BBIE id to the exact-dedup of the concatenation of the tuples of the
prefiltered entries naming it (so `[]` when none do). -/
theorem claim_C5 (prefiltered : List CompTuples) (g : ComponentGraph) (t : Taxonomy)
    (out : BucketMaps) (h : run_step2_oc prefiltered g t = .ok out) :
    ∀ b ∈ g.bbies.map Bbie.id,
      alGet out.BBIE b =
        some (dedup_exact_ordered (prefiltered_tuples_for prefiltered b)) := by
  intro b hb
  simp only [run_step2_oc, bind, Except.bind] at h
  cases hv : validate_taxonomy t with
  | error e => rw [hv] at h; exact absurd h (by simp)
  | ok u1 =>
    rw [hv] at h
    dsimp only at h
    cases hg : validate_component_graph g with
    | error e => rw [hg] at h; exact absurd h (by simp)
    | ok u2 =>
      rw [hg] at h
      dsimp only at h
      cases ht : topological_order_or_cycle g with
      | error e => rw [ht] at h; exact absurd h (by simp)
      | ok topo =>
        rw [ht] at h
        dsimp only at h
        cases hst : step2_abie_loop t g (step2_pref_map prefiltered)
            (oc_bbie_map g (step2_pref_map prefiltered)) ([], []) topo.reverse with
        | error e => rw [hst] at h; exact absurd h (by simp)
        | ok st =>
          rw [hst] at h
          dsimp only at h
          simp only [Except.ok.injEq] at h
          subst h
          have hmem1 : b ∈ sortStrings (dedup_first [] (g.bbies.map Bbie.id)) := by
            rw [mem_sortStrings, mem_dedup_first]; exact ⟨hb, by simp⟩
          show alGet ((sortStrings (dedup_first [] (g.bbies.map Bbie.id))).map
            (fun k => (k, (alGet (oc_bbie_map g (step2_pref_map prefiltered)) k).getD []))) b
              = _
          rw [alGet_keyed_map, if_pos hmem1]
          unfold oc_bbie_map
          rw [alGet_keyed_map, if_pos hmem1]
          simp only [Option.getD_some]
          rw [step2_pref_map_lookup]
          by_cases hm : b ∈ prefiltered.map CompTuples.componentId
          · simp [hm]
          · rw [if_neg hm]
            have : prefiltered_tuples_for prefiltered b = [] := by
              unfold prefiltered_tuples_for
              rw [List.filter_eq_nil_iff.2, List.map_nil]
              · rfl
              · intro e he
                intro hbeq
                apply hm
                rw [List.mem_map]
                exact ⟨e, he, by simpa using hbeq⟩
            simp [this, dedup_exact_ordered, dedup_first]

/-- C5 counterexample: a duplicated prefiltered tuple is deduped by Step 2
(`step2.py:144`), so `OC[BBIE]` is not the verbatim concatenation of the
prefiltered tuples. -/
theorem claim_C5_counterexample :
    validate_taxonomy scenA_tax = .ok () ∧
    validate_component_graph g5 = .ok () ∧
    run_step2_oc [⟨"B", [[("Region", "Region.EU")], [("Region", "Region.EU")]]⟩] g5 scenA_tax =
      .ok { ABIE := [("A", [[("Region", "Region.EU")]])], ASBIE := []
            BBIE := [("B", [[("Region", "Region.EU")]])] } ∧
    prefiltered_tuples_for [⟨"B", [[("Region", "Region.EU")], [("Region", "Region.EU")]]⟩] "B" =
      [[("Region", "Region.EU")], [("Region", "Region.EU")]] ∧
    alGet [("B", [[("Region", "Region.EU")]])] "B" ≠
      some [[("Region", "Region.EU")], [("Region", "Region.EU")]] := by decide

/-- C5 witness: the amended theorem applied to the concrete duplicate run. -/
theorem claim_C5_witness :
    alGet ({ ABIE := [("A", [[("Region", "Region.EU")]])], ASBIE := []
             BBIE := [("B", [[("Region", "Region.EU")]])] } : BucketMaps).BBIE "B" =
      some (dedup_exact_ordered (prefiltered_tuples_for
        [⟨"B", [[("Region", "Region.EU")], [("Region", "Region.EU")]]⟩] "B")) :=
  claim_C5 [⟨"B", [[("Region", "Region.EU")], [("Region", "Region.EU")]]⟩] g5 scenA_tax
    _ (by decide) "B" (by decide)

theorem alSet_map_fst_of_mem {α : Type} (m : List (String × α)) (k : String) (v : α)
    (h : k ∈ m.map Prod.fst) : (alSet m k v).map Prod.fst = m.map Prod.fst := by
  induction m with
  | nil => simp at h
  | cons p rest ih =>
    by_cases hk : p.1 = k
    · obtain ⟨a, b⟩ := p; simp only at hk; subst hk; simp [alSet]
    · obtain ⟨a, b⟩ := p; simp only at hk
      simp only [alSet, if_neg hk, List.map_cons]
      congr 1
      apply ih
      simp only [List.map_cons, List.mem_cons] at h
      rcases h with h | h
      · exact absurd h.symm hk
      · exact h

theorem alGet_isSome_of_mem_keys {α : Type} (m : List (String × α)) (k : String)
    (h : k ∈ m.map Prod.fst) : ∃ v, alGet m k = some v := by
  induction m with
  | nil => simp at h
  | cons p rest ih =>
    by_cases hk : p.1 = k
    · exact ⟨p.2, by obtain ⟨a, b⟩ := p; simp only at hk; subst hk; simp [alGet]⟩
    · obtain ⟨a, b⟩ := p
      simp only at hk
      simp only [List.map_cons, List.mem_cons] at h
      rcases h with h | h
      · exact absurd h.symm hk
      · simpa [alGet, hk] using ih h

theorem validate_component_graph_ok (g : ComponentGraph)
    (h : validate_component_graph g = .ok ()) :
    (g.abies.map Abie.id ++ g.asbies.map Asbie.id ++ g.bbies.map Bbie.id).Nodup ∧
    g.rootABIE ∈ g.abies.map Abie.id ∧
    (∀ s ∈ g.asbies, s.sourceABIE ∈ g.abies.map Abie.id ∧
      s.targetABIE ∈ g.abies.map Abie.id) ∧
    (∀ a ∈ g.abies, (∀ c ∈ a.childrenASBIE, c ∈ g.asbies.map Asbie.id) ∧
      (∀ c ∈ a.childrenBBIE, c ∈ g.bbies.map Bbie.id)) := by
  unfold validate_component_graph at h
  obtain ⟨⟨⟩, h1, h⟩ := py_bind_ok h
  obtain ⟨⟨⟩, h2, h⟩ := py_bind_ok h
  obtain ⟨⟨⟩, h3, h⟩ := py_bind_ok h
  obtain ⟨⟨⟩, h4, h⟩ := py_bind_ok h
  obtain ⟨⟨⟩, h5, h⟩ := py_bind_ok h
  obtain ⟨⟨⟩, h6, h⟩ := py_bind_ok h
  obtain ⟨⟨⟩, h7, h⟩ := py_bind_ok h
  obtain ⟨⟨⟩, h8, h⟩ := py_bind_ok h
  obtain ⟨⟨⟩, h9, h⟩ := py_bind_ok h
  exact ⟨ensure_ok h6, ensure_ok h7, ensure_ok h8, ensure_ok h⟩

theorem step3_incoming_go_ok :
    ∀ (asbies : List Asbie) (m : List (String × List String)),
    (∀ s ∈ asbies, s.targetABIE ∈ m.map Prod.fst) →
    ∃ r, step3_incoming_go m asbies = .ok r := by
  intro asbies
  induction asbies with
  | nil => intro m _; exact ⟨m, rfl⟩
  | cons s rest ih =>
    intro m hall
    obtain ⟨v, hv⟩ := alGet_isSome_of_mem_keys m s.targetABIE (hall s (List.mem_cons_self _ _))
    simp only [step3_incoming_go, alGetE, hv]
    obtain ⟨r, hr⟩ := ih (alSet m s.targetABIE (v ++ [s.id])) (by
      rw [alSet_map_fst_of_mem m _ _ (hall s (List.mem_cons_self _ _))]
      exact fun x hx => hall x (List.mem_cons_of_mem _ hx))
    exact ⟨r, by simpa [Bind.bind, Except.bind] using hr⟩

theorem step3_incoming_ok (g : ComponentGraph)
    (hvg : validate_component_graph g = .ok ()) :
    ∃ r, step3_incoming g = .ok r := by
  obtain ⟨-, -, hres, -⟩ := validate_component_graph_ok g hvg
  obtain ⟨r, hr⟩ := step3_incoming_go_ok g.asbies
    ((dedup_first [] (g.abies.map Abie.id)).map (fun k => (k, ([] : List String))))
    (by
      intro s hs
      have : s.targetABIE ∈ dedup_first [] (g.abies.map Abie.id) := by
        rw [mem_dedup_first]
        exact ⟨(hres s hs).2, by simp⟩
      simpa using this)
  refine ⟨r.map (fun p => (p.1, sortStrings p.2)), ?_⟩
  simp [step3_incoming, hr, Bind.bind, Except.bind]

theorem intersect_tuple_oc_first_key_missing (t : Taxonomy) (l0 r0 : Tup) (k0 : String)
    (krest : List String) (hk : t.keys = k0 :: krest) (hr : alGet r0 k0 = none) :
    intersect_tuple_oc l0 r0 t = .error (.keyError k0) := by
  unfold intersect_tuple_oc
  rw [hk]
  cases hl : alGet l0 k0 with
  | none => simp [intersect_tuple_oc_go, alGetE, hl, Bind.bind, Except.bind]
  | some v => simp [intersect_tuple_oc_go, alGetE, hl, hr, Bind.bind, Except.bind]

theorem t_intersect_first_pair_error (t : Taxonomy) (l0 r0 : Tup)
    (lrest rrest : List Tup) (e : PyErr)
    (h : intersect_tuple_oc l0 r0 t = .error e) :
    t_intersect (l0 :: lrest) (r0 :: rrest) t = .error e := by
  simp [t_intersect, t_intersect_outer, t_intersect_inner, h, Bind.bind, Except.bind]

theorem str_append_left_ne_empty (a b : String) (h : a ≠ "") : a ++ b ≠ "" := by
  intro hh
  apply h
  have hlen : (a ++ b).length = 0 := by rw [hh]; rfl
  rw [String.length_append] at hlen
  have ha : a.length = 0 := by omega
  cases a with
  | mk data =>
    cases data with
    | nil => rfl
    | cons c cs => simp [String.length] at ha

theorem build_error_envelope_ok (error reason : String) (details : Tup)
    (he : error ∈ allowedErrors) (hr : reason ≠ "") :
    build_error_envelope error reason details = .ok ⟨error, reason, details⟩ := by
  simp [build_error_envelope, ensure, if_pos he, if_pos hr, Bind.bind, Except.bind, pure,
    Except.pure]

/-- C9 (amended): if the first tuple of the deduped IUC list omits the first
taxonomy key and `OC[rootABIE]` is non-empty, `run_step3_ec_safe` does not
compute an EC but returns the `Step3 / missing required field: <first key>`
envelope with `stage=runtime` (the seed's tuple-set meet indexes the tuples at
the taxonomy keys in order). -/
theorem claim_C9 (oc : BucketMaps) (g : ComponentGraph) (t : Taxonomy) (iuc : Iuc)
    (k0 : String) (krest : List String) (topo : List String)
    (l0 r0 : Tup) (lrest rrest : List Tup)
    (hvt : validate_taxonomy t = .ok ())
    (hvg : validate_component_graph g = .ok ())
    (hvi : validate_iucs [iuc] t = .ok ())
    (htopo : topological_order_or_cycle g = .ok topo)
    (hk : t.keys = k0 :: krest)
    (hded : dedup_exact_ordered iuc.tuples = r0 :: rrest)
    (hr0 : alGet r0 k0 = none)
    (hroot : (alGet oc.ABIE g.rootABIE).getD [] = l0 :: lrest) :
    run_step3_ec_safe oc g t iuc =
      .ok (.inl ⟨"Step3", "missing required field: " ++ k0, [("stage", "runtime")]⟩) := by
  have hrun : run_step3_ec oc g t iuc = .error (.keyError k0) := by
    obtain ⟨inc, hinc⟩ := step3_incoming_ok g hvg
    simp only [run_step3_ec, bind, Except.bind]
    rw [hvt]
    dsimp only
    rw [hvg]
    dsimp only
    rw [hvi]
    dsimp only
    rw [htopo]
    dsimp only
    rw [hinc]
    dsimp only
    rw [hroot, hded,
      t_intersect_first_pair_error t l0 r0 lrest rrest _
        (intersect_tuple_oc_first_key_missing t l0 r0 k0 krest hk hr0)]
  simp only [run_step3_ec_safe]
  rw [hrun]
  dsimp only
  rw [build_error_envelope_ok _ _ _ (by decide)
    (str_append_left_ne_empty _ _ (by decide))]
  rfl

/-- C9 counterexample: a partial IUC tuple (omitting taxonomy key `Channel`)
passes validation and `OC[root]` is non-empty, yet `run_step3_ec_safe` computes
an EC instead of returning the missing-required-field envelope, because the
meet fails on `Region` before the missing key is indexed. -/
theorem claim_C9_counterexample :
    alGet [("Region", "Region.US")] "Channel" = none ∧
    "Channel" ∈ scenA_tax.keys ∧
    validate_iucs [⟨"I", [[("Region", "Region.US")]]⟩] scenA_tax = .ok () ∧
    (alGet oc9.ABIE g9.rootABIE).getD [] ≠ [] ∧
    run_step3_ec_safe oc9 g9 scenA_tax ⟨"I", [[("Region", "Region.US")]]⟩ =
      .ok (.inr { ABIE := [("R", [])], ASBIE := [], BBIE := [] }) := by decide

/-- C9 witness: the amended theorem at a concrete input whose first IUC tuple
omits the first taxonomy key `Region`. -/
theorem claim_C9_witness :
    run_step3_ec_safe oc9 g9 scenA_tax ⟨"I", [[("Channel", "Channel.B2B")]]⟩ =
      .ok (.inl ⟨"Step3", "missing required field: " ++ "Region",
        [("stage", "runtime")]⟩) :=
  claim_C9 oc9 g9 scenA_tax ⟨"I", [[("Channel", "Channel.B2B")]]⟩
    "Region" ["Channel"] ["R"]
    [("Region", "Region.EU"), ("Channel", "Channel.B2B")] [("Channel", "Channel.B2B")] [] []
    (by decide) (by decide) (by decide) (by decide) (by decide) (by decide) (by decide)
    (by decide)

theorem alGet_some_mem_entry {α : Type} :
    ∀ (m : List (String × α)) (k : String) (v : α),
    alGet m k = some v → (k, v) ∈ m := by
  intro m
  induction m with
  | nil => intro k v h; simp [alGet] at h
  | cons p rest ih =>
    intro k v h
    by_cases hk : p.1 = k
    · obtain ⟨a, b⟩ := p
      simp only at hk
      subst hk
      simp [alGet] at h
      subst h
      exact List.mem_cons_self _ _
    · obtain ⟨a, b⟩ := p
      simp only at hk
      simp only [alGet, if_neg hk] at h
      exact List.mem_cons_of_mem _ (ih k v h)

theorem edgeRel_iff_mem (edges : List (String × List String)) (node : String)
    (vs : List String) (v : String) (h : alGet edges node = some vs) :
    edgeRel edges node v ↔ v ∈ vs := by
  simp [edgeRel, h]

theorem inCount_irrelevant_dead (node : String) (v : String) :
    ∀ (m : List (String × List String)) (out : List String),
    (∀ p ∈ m, p.1 ≠ node) →
    inCount m (out ++ [node]) v = inCount m out v := by
  intro m out hall
  unfold inCount
  apply List.countP_congr
  intro p hp
  have hne := hall p hp
  by_cases ho : p.1 ∈ out
  · simp [ho]
  · simp [ho, hne]

theorem inCount_transition (v node : String) :
    ∀ (edges : List (String × List String)) (out : List String),
    (edges.map Prod.fst).Nodup →
    inCount edges out v = inCount edges (out ++ [node]) v +
      (if node ∉ out ∧ edgeRel edges node v then 1 else 0) := by
  intro edges
  induction edges with
  | nil =>
    intro out _
    simp [inCount, edgeRel, alGet]
  | cons p rest ih =>
    intro out hnd
    have hnd' : (rest.map Prod.fst).Nodup := (List.nodup_cons.1 (by simpa using hnd)).2
    have hnode_rest : p.1 ∉ rest.map Prod.fst := (List.nodup_cons.1 (by simpa using hnd)).1
    by_cases hk : p.1 = node
    · have hrel : edgeRel (p :: rest) node v ↔ v ∈ p.2 := by
        refine edgeRel_iff_mem _ _ _ _ ?_
        obtain ⟨a, b⟩ := p
        simp only at hk
        subst hk
        simp [alGet]
      have hrest : inCount rest (out ++ [node]) v = inCount rest out v := by
        apply inCount_irrelevant_dead
        intro q hq hqn
        exact hnode_rest (by rw [← hk] at hqn; rw [← hqn]; exact List.mem_map_of_mem _ hq)
      unfold inCount
      rw [List.countP_cons, List.countP_cons]
      have hdead' : (p.1 ∈ out ++ [node]) := by
        rw [hk]; simp
      show (List.countP _ rest) + _ = (List.countP _ rest) + _ + _
      rw [show (List.countP (fun q => decide (q.1 ∉ out ++ [node]) && decide (v ∈ q.2)) rest)
          = inCount rest (out ++ [node]) v from rfl, hrest]
      rw [show (List.countP (fun q => decide (q.1 ∉ out) && decide (v ∈ q.2)) rest)
          = inCount rest out v from rfl]
      simp only [hdead', hrel]
      by_cases ho : p.1 ∈ out
      · have : node ∈ out := by rw [← hk]; exact ho
        simp [ho, this]
      · have hno : node ∉ out := by rw [← hk]; exact ho
        by_cases hv : v ∈ p.2
        · simp [ho, hno, hv]
        · simp [ho, hno, hv]
    · have hrel : edgeRel (p :: rest) node v ↔ edgeRel rest node v := by
        obtain ⟨a, b⟩ := p
        simp only at hk
        simp [edgeRel, alGet, hk]
      unfold inCount
      rw [List.countP_cons, List.countP_cons]
      have hdead : (decide (p.1 ∉ out ++ [node]) : Bool) = decide (p.1 ∉ out) := by
        by_cases ho : p.1 ∈ out
        · simp [ho]
        · simp [ho, hk]
      rw [hdead]
      have := ih out hnd'
      unfold inCount at this
      have hif : (if node ∉ out ∧ edgeRel (p :: rest) node v then (1 : Nat) else 0)
          = (if node ∉ out ∧ edgeRel rest node v then 1 else 0) := by
        by_cases hcase : node ∉ out ∧ edgeRel rest node v
        · rw [if_pos hcase, if_pos ⟨hcase.1, hrel.2 hcase.2⟩]
        · rw [if_neg hcase, if_neg (fun hc => hcase ⟨hc.1, hrel.1 hc.2⟩)]
      rw [hif]
      omega

theorem kahn_decrement_spec :
    ∀ (vs : List String) (indeg : List (String × Int)) (app : List String),
    vs.Nodup → (∀ v ∈ vs, ∃ d, alGet indeg v = some d) →
    ∃ indeg', kahn_decrement indeg app vs =
        .ok (indeg', app ++ vs.filter (fun v => alGet indeg v = some 1)) ∧
      indeg'.map Prod.fst = indeg.map Prod.fst ∧
      (∀ v, alGet indeg' v =
        if v ∈ vs then (alGet indeg v).map (fun d => d - 1) else alGet indeg v) := by
  intro vs
  induction vs with
  | nil =>
    intro indeg app _ _
    exact ⟨indeg, by simp [kahn_decrement], rfl, by simp⟩
  | cons nxt rest ih =>
    intro indeg app hnd hall
    obtain ⟨d, hd⟩ := hall nxt (List.mem_cons_self _ _)
    have hnxt_rest : nxt ∉ rest := (List.nodup_cons.1 hnd).1
    have hkeys : nxt ∈ indeg.map Prod.fst := by
      have := alGet_some_mem_entry indeg nxt d hd
      exact List.mem_map_of_mem Prod.fst this
    obtain ⟨indeg', hrun, hkeys', hget'⟩ := ih (alSet indeg nxt (d - 1))
      (if d - 1 = 0 then app ++ [nxt] else app)
      (List.nodup_cons.1 hnd).2
      (by
        intro v hv
        rw [alGet_alSet_ne indeg nxt v (d - 1) (fun hh => hnxt_rest (hh ▸ hv))]
        exact hall v (List.mem_cons_of_mem _ hv))
    refine ⟨indeg', ?_, ?_, ?_⟩
    · simp only [kahn_decrement, hd]
      rw [hrun]
      congr 1
      congr 1
      have hfil : rest.filter (fun v => alGet (alSet indeg nxt (d - 1)) v = some 1) =
          rest.filter (fun v => alGet indeg v = some 1) := by
        apply List.filter_congr
        intro v hv
        rw [alGet_alSet_ne indeg nxt v (d - 1) (fun hh => hnxt_rest (hh ▸ hv))]
      rw [hfil]
      by_cases hd1 : d - 1 = 0
      · rw [if_pos hd1]
        rw [List.filter_cons, if_pos (by simp [hd]; omega)]
        simp
      · rw [if_neg hd1]
        rw [List.filter_cons, if_neg (by simp [hd]; omega)]
    · rw [hkeys', alSet_map_fst_of_mem _ _ _ hkeys]
    · intro v
      rw [hget' v]
      by_cases hv : v ∈ rest
      · rw [if_pos hv, if_pos (List.mem_cons_of_mem _ hv),
          alGet_alSet_ne indeg nxt v (d - 1) (fun hh => hnxt_rest (hh ▸ hv))]
      · rw [if_neg hv]
        by_cases hvn : v = nxt
        · subst hvn
          rw [if_pos (List.mem_cons_self _ _), alGet_alSet_self, hd]
          rfl
        · rw [if_neg (by
            intro hh
            rcases List.mem_cons.1 hh with hh | hh
            · exact hvn hh
            · exact hv hh)]
          rw [alGet_alSet_ne indeg nxt v (d - 1) (fun hh => hvn hh)]

theorem inCount_zero_sources (edges : List (String × List String)) (out : List String)
    (v : String) (h : inCount edges out v = 0) :
    ∀ u, edgeRel edges u v → u ∈ out := by
  intro u hrel
  obtain ⟨vs, hget, hv⟩ := hrel
  have hmem := alGet_some_mem_entry edges u vs hget
  have := List.countP_eq_zero.1 h _ hmem
  simp only [Bool.and_eq_true, decide_eq_true_eq] at this
  by_contra hu
  exact this ⟨hu, hv⟩

theorem dict_by_id_mem {α : Type} (l : List α) (idOf : α → String) (k : String) (s : α)
    (h : dict_by_id l idOf k = some s) : s ∈ l ∧ idOf s = k := by
  unfold dict_by_id at h
  refine ⟨List.mem_reverse.1 (List.mem_of_find?_eq_some h), ?_⟩
  have := List.find?_some h
  simpa using this

theorem dict_by_id_resolves {α : Type} (l : List α) (idOf : α → String) (k : String)
    (h : k ∈ l.map idOf) : ∃ s, dict_by_id l idOf k = some s := by
  obtain ⟨a, ha, rfl⟩ := List.mem_map.1 h
  have hsome : (l.reverse.find? (fun x => idOf x == idOf a)).isSome := by
    rw [List.find?_isSome]
    exact ⟨a, List.mem_reverse.2 ha, by simp⟩
  obtain ⟨s, hs⟩ := Option.isSome_iff_exists.1 hsome
  exact ⟨s, hs⟩

theorem inCount_alSet_append (source v w : String) :
    ∀ (edges : List (String × List String)) (cur : List String),
    (edges.map Prod.fst).Nodup → alGet edges source = some cur →
    inCount (alSet edges source (cur ++ [v])) [] w =
      inCount edges [] w + (if w = v ∧ w ∉ cur then 1 else 0) := by
  intro edges
  induction edges with
  | nil => intro cur _ hget; simp [alGet] at hget
  | cons p rest ih =>
    intro cur hnd hget
    have hnd' : (rest.map Prod.fst).Nodup := (List.nodup_cons.1 (by simpa using hnd)).2
    have hhead : p.1 ∉ rest.map Prod.fst := (List.nodup_cons.1 (by simpa using hnd)).1
    by_cases hk : p.1 = source
    · obtain ⟨a, b⟩ := p
      simp only at hk
      subst hk
      simp [alGet] at hget
      subst hget
      have hset : alSet ((a, b) :: rest) a (b ++ [v]) = (a, b ++ [v]) :: rest := by
        simp [alSet]
      rw [hset]
      unfold inCount
      rw [List.countP_cons, List.countP_cons]
      by_cases hw : w = v
      · subst hw
        by_cases hwc : w ∈ b
        · simp [hwc]
        · simp [hwc, List.mem_append]
      · have hmm : (w ∈ b ++ [v]) ↔ w ∈ b := by
          simp [List.mem_append, hw]
        simp [hmm, hw]
    · obtain ⟨a, b⟩ := p
      simp only at hk
      simp only [alGet, if_neg hk] at hget
      simp only [alSet, if_neg hk]
      unfold inCount
      rw [List.countP_cons, List.countP_cons]
      have := ih cur hnd' hget
      unfold inCount at this
      omega

theorem build_edges_children_spec (asbies : List Asbie) (nodes : List String)
    (hnodes : nodes.Nodup) (source : String) (hsource : source ∈ nodes) :
    ∀ (children : List String)
      (st : List (String × List String) × List (String × Int)),
    BuildInv nodes st →
    (∀ c ∈ children, ∃ s, dict_by_id asbies Asbie.id c = some s ∧ s.targetABIE ∈ nodes) →
    ∃ st', build_edges_children asbies source st children = .ok st' ∧
      BuildInv nodes st' ∧
      (∀ u vs, alGet st.1 u = some vs → ∃ vs', alGet st'.1 u = some vs' ∧
        ∀ x ∈ vs, x ∈ vs') ∧
      (∀ c ∈ children, ∀ s, dict_by_id asbies Asbie.id c = some s →
        ∃ vs', alGet st'.1 source = some vs' ∧ s.targetABIE ∈ vs') := by
  intro children
  induction children with
  | nil =>
    intro st hinv _
    exact ⟨st, rfl, hinv, fun u vs h => ⟨vs, h, fun x hx => hx⟩, by simp⟩
  | cons c rest ih =>
    intro st hinv hres
    obtain ⟨hs, htgt⟩ := hres c (List.mem_cons_self _ _)
    obtain ⟨s, hdict, htgt⟩ := hres c (List.mem_cons_self _ _)
    obtain ⟨h1, h2, h3, h4⟩ := hinv
    obtain ⟨cur, hcur⟩ := alGet_isSome_of_mem_keys st.1 source (h1 ▸ hsource)
    have hcurprops := h3 source cur hcur
    by_cases hmem : s.targetABIE ∈ cur
    · obtain ⟨st', hrun, hinv', hmono, hch⟩ :=
        ih st ⟨h1, h2, h3, h4⟩ (fun x hx => hres x (List.mem_cons_of_mem _ hx))
      refine ⟨st', ?_, hinv', hmono, ?_⟩
      · simp only [build_edges_children, hdict, alGetE, hcur, Bind.bind, Except.bind,
          if_pos hmem]
        exact hrun
      · intro x hx s' hdict'
        rcases List.mem_cons.1 hx with hx | hx
        · subst hx
          rw [hdict] at hdict'
          obtain rfl : s = s' := by injection hdict'
          obtain ⟨vs', hvs', hsub⟩ := hmono source cur hcur
          exact ⟨vs', hvs', hsub _ hmem⟩
        · exact hch x hx s' hdict'
    · obtain ⟨d, hd⟩ := alGet_isSome_of_mem_keys st.2 s.targetABIE (h2 ▸ htgt)
      have hkeys1 : (st.1.map Prod.fst).Nodup := h1 ▸ hnodes
      have hcnt := fun w => inCount_alSet_append source s.targetABIE w st.1 cur hkeys1 hcur
      have hinv2 : BuildInv nodes
          (alSet st.1 source (cur ++ [s.targetABIE]), alSet st.2 s.targetABIE (d + 1)) := by
        refine ⟨?_, ?_, ?_, ?_⟩
        · rw [alSet_map_fst_of_mem st.1 source _ (h1 ▸ hsource)]; exact h1
        · rw [alSet_map_fst_of_mem st.2 s.targetABIE _ (h2 ▸ htgt)]; exact h2
        · intro u vs hget
          by_cases hu : u = source
          · subst hu
            rw [alGet_alSet_self] at hget
            obtain rfl : vs = cur ++ [s.targetABIE] := by
              injection hget with hh
              exact hh.symm
            constructor
            · rw [List.nodup_append]
              exact ⟨hcurprops.1, List.nodup_singleton _,
                fun x hx hx1 => hmem ((List.mem_singleton.1 hx1) ▸ hx)⟩
            · intro x hx
              rcases List.mem_append.1 hx with hx | hx
              · exact hcurprops.2 x hx
              · exact (List.mem_singleton.1 hx) ▸ htgt
          · rw [alGet_alSet_ne st.1 source u _ hu] at hget
            exact h3 u vs hget
        · intro v hv
          by_cases hvt : v = s.targetABIE
          · rw [hvt, alGet_alSet_self]
            have hdval : d = ((inCount st.1 [] s.targetABIE : Nat) : Int) := by
              have h5 := h4 s.targetABIE htgt
              rw [hd] at h5
              injection h5 with h5
            have hc := hcnt s.targetABIE
            rw [if_pos ⟨rfl, hmem⟩] at hc
            rw [hc, hdval]
            congr 1
          · rw [alGet_alSet_ne st.2 s.targetABIE v _ hvt]
            have hc := hcnt v
            rw [if_neg (fun hh => hvt hh.1)] at hc
            rw [hc, Nat.add_zero]
            exact h4 v hv
      obtain ⟨st', hrun, hinv', hmono, hch⟩ :=
        ih _ hinv2 (fun x hx => hres x (List.mem_cons_of_mem _ hx))
      have hmono2 : ∀ u vs, alGet st.1 u = some vs → ∃ vs', alGet st'.1 u = some vs' ∧
          ∀ x ∈ vs, x ∈ vs' := by
        intro u vs hget
        by_cases hu : u = source
        · obtain ⟨vs', hvs', hsub⟩ := hmono u (cur ++ [s.targetABIE]) (by
            rw [hu]
            exact alGet_alSet_self _ _ _)
          have hvc : vs = cur := by
            rw [hu, hcur] at hget
            injection hget with hh
            exact hh.symm
          exact ⟨vs', hvs', fun x hx => hsub x (List.mem_append_left _ (hvc ▸ hx))⟩
        · obtain ⟨vs', hvs', hsub⟩ := hmono u vs (by
            rw [alGet_alSet_ne st.1 source u _ hu]; exact hget)
          exact ⟨vs', hvs', hsub⟩
      refine ⟨st', ?_, hinv', hmono2, ?_⟩
      · simp only [build_edges_children, hdict, alGetE, hcur, Bind.bind, Except.bind,
          if_neg hmem, hd]
        exact hrun
      · intro x hx s' hdict'
        rcases List.mem_cons.1 hx with hx | hx
        · subst hx
          rw [hdict] at hdict'
          obtain rfl : s = s' := by injection hdict'
          obtain ⟨vs', hvs', hsub⟩ := hmono source (cur ++ [s.targetABIE]) (alGet_alSet_self _ _ _)
          exact ⟨vs', hvs', hsub _ (List.mem_append_right _ (List.mem_singleton.2 rfl))⟩
        · exact hch x hx s' hdict'

theorem build_edges_children_mono (asbies : List Asbie) (source : String) :
    ∀ (children : List String)
      (st st' : List (String × List String) × List (String × Int)),
    build_edges_children asbies source st children = .ok st' →
    ∀ u vs, alGet st.1 u = some vs → ∃ vs', alGet st'.1 u = some vs' ∧
      ∀ x ∈ vs, x ∈ vs' := by
  intro children
  induction children with
  | nil =>
    intro st st' hrun u vs hget
    obtain rfl : st = st' := by
      simp only [build_edges_children] at hrun
      injection hrun
    exact ⟨vs, hget, fun x hx => hx⟩
  | cons c rest ih =>
    intro st st' hrun u vs hget
    simp only [build_edges_children] at hrun
    cases hdict : dict_by_id asbies Asbie.id c with
    | none => rw [hdict] at hrun; exact absurd hrun (by simp)
    | some s =>
      rw [hdict] at hrun
      dsimp only at hrun
      simp only [Bind.bind, Except.bind, alGetE] at hrun
      cases hcur : alGet st.1 source with
      | none => rw [hcur] at hrun; exact absurd hrun (by simp)
      | some cur =>
        rw [hcur] at hrun
        dsimp only at hrun
        by_cases hmem : s.targetABIE ∈ cur
        · rw [if_pos hmem] at hrun
          exact ih st st' hrun u vs hget
        · rw [if_neg hmem] at hrun
          cases hd : alGet st.2 s.targetABIE with
          | none => rw [hd] at hrun; exact absurd hrun (by simp)
          | some d =>
            rw [hd] at hrun
            dsimp only at hrun
            by_cases hu : u = source
            · obtain ⟨vs', hvs', hsub⟩ := ih _ st' hrun u (cur ++ [s.targetABIE]) (by
                rw [hu]
                exact alGet_alSet_self _ _ _)
              have hvc : vs = cur := by
                rw [hu, hcur] at hget
                injection hget with hh
                exact hh.symm
              exact ⟨vs', hvs', fun x hx => hsub x (List.mem_append_left _ (hvc ▸ hx))⟩
            · obtain ⟨vs', hvs', hsub⟩ := ih _ st' hrun u vs (by
                rw [alGet_alSet_ne st.1 source u _ hu]
                exact hget)
              exact ⟨vs', hvs', hsub⟩

theorem build_edges_abies_mono (gasbies : List Asbie) :
    ∀ (abies : List Abie)
      (st st' : List (String × List String) × List (String × Int)),
    build_edges_abies gasbies st abies = .ok st' →
    ∀ u vs, alGet st.1 u = some vs → ∃ vs', alGet st'.1 u = some vs' ∧
      ∀ x ∈ vs, x ∈ vs' := by
  intro abies
  induction abies with
  | nil =>
    intro st st' hrun u vs hget
    obtain rfl : st = st' := by
      simp only [build_edges_abies] at hrun
      injection hrun
    exact ⟨vs, hget, fun x hx => hx⟩
  | cons a rest ih =>
    intro st st' hrun u vs hget
    obtain ⟨st1, hst1, hrest⟩ := py_bind_ok (by
      simpa only [build_edges_abies, Bind.bind] using hrun)
    obtain ⟨vs1, hvs1, hsub1⟩ := build_edges_children_mono gasbies a.id
      a.childrenASBIE st st1 hst1 u vs hget
    obtain ⟨vs', hvs', hsub⟩ := ih st1 st' hrest u vs1 hvs1
    exact ⟨vs', hvs', fun x hx => hsub x (hsub1 x hx)⟩

theorem build_edges_abies_spec (gasbies : List Asbie) (nodes : List String)
    (hnodes : nodes.Nodup) :
    ∀ (abies : List Abie)
      (st : List (String × List String) × List (String × Int)),
    BuildInv nodes st →
    (∀ a ∈ abies, a.id ∈ nodes) →
    (∀ a ∈ abies, ∀ c ∈ a.childrenASBIE,
      ∃ s, dict_by_id gasbies Asbie.id c = some s ∧ s.targetABIE ∈ nodes) →
    ∃ st', build_edges_abies gasbies st abies = .ok st' ∧
      BuildInv nodes st' ∧
      (∀ a ∈ abies, ∀ c ∈ a.childrenASBIE, ∀ s, dict_by_id gasbies Asbie.id c = some s →
        ∃ vs', alGet st'.1 a.id = some vs' ∧ s.targetABIE ∈ vs') := by
  intro abies
  induction abies with
  | nil =>
    intro st hinv _ _
    exact ⟨st, rfl, hinv, by simp⟩
  | cons a rest ih =>
    intro st hinv hids hres
    obtain ⟨st1, hrun1, hinv1, hmono1, hch1⟩ :=
      build_edges_children_spec gasbies nodes hnodes a.id
        (hids a (List.mem_cons_self _ _)) a.childrenASBIE st hinv
        (hres a (List.mem_cons_self _ _))
    obtain ⟨st', hrun, hinv', hch'⟩ := ih st1 hinv1
      (fun x hx => hids x (List.mem_cons_of_mem _ hx))
      (fun x hx => hres x (List.mem_cons_of_mem _ hx))
    have hmonorest := build_edges_abies_mono gasbies rest st1 st' hrun
    refine ⟨st', ?_, hinv', ?_⟩
    · simp only [build_edges_abies, Bind.bind, Except.bind, hrun1]
      exact hrun
    · intro x hx c hc s hdict
      rcases List.mem_cons.1 hx with hx | hx
      · subst hx
        obtain ⟨vs1, hvs1, hmem1⟩ := hch1 c hc s hdict
        obtain ⟨vs', hvs', hsub⟩ := hmonorest x.id vs1 hvs1
        exact ⟨vs', hvs', hsub _ hmem1⟩
      · exact hch' x hx c hc s hdict

theorem kahn_queue_init_spec (indeg : List (String × Int)) :
    ∀ ns : List String, (∀ n ∈ ns, n ∈ indeg.map Prod.fst) →
    ∃ q0, kahn_queue_init indeg ns = .ok q0 ∧ List.Sublist q0 ns ∧
      (∀ v, v ∈ q0 ↔ v ∈ ns ∧ alGet indeg v = some 0) := by
  intro ns
  induction ns with
  | nil =>
    intro _
    exact ⟨[], rfl, List.Sublist.refl _, by simp⟩
  | cons n rest ih =>
    intro hall
    obtain ⟨d, hd⟩ := alGet_isSome_of_mem_keys indeg n (hall n (List.mem_cons_self _ _))
    obtain ⟨q0, hq0, hsub, hmem⟩ := ih (fun x hx => hall x (List.mem_cons_of_mem _ hx))
    by_cases hd0 : d = 0
    · refine ⟨n :: q0, ?_, List.Sublist.cons₂ n hsub, ?_⟩
      · simp only [kahn_queue_init, alGetE, hd, Bind.bind, Except.bind, hq0]
        rw [if_pos hd0]
      · intro v
        constructor
        · intro hv
          rcases List.mem_cons.1 hv with hv | hv
          · exact ⟨hv ▸ List.mem_cons_self _ _, hv ▸ (hd0 ▸ hd)⟩
          · obtain ⟨hv1, hv2⟩ := hmem v |>.1 hv
            exact ⟨List.mem_cons_of_mem _ hv1, hv2⟩
        · intro ⟨hv1, hv2⟩
          rcases List.mem_cons.1 hv1 with hv1 | hv1
          · exact hv1 ▸ List.mem_cons_self _ _
          · exact List.mem_cons_of_mem _ ((hmem v).2 ⟨hv1, hv2⟩)
    · refine ⟨q0, ?_, List.Sublist.cons n hsub, ?_⟩
      · simp only [kahn_queue_init, alGetE, hd, Bind.bind, Except.bind, hq0]
        rw [if_neg hd0]
      · intro v
        rw [hmem v]
        constructor
        · intro ⟨hv1, hv2⟩
          exact ⟨List.mem_cons_of_mem _ hv1, hv2⟩
        · intro ⟨hv1, hv2⟩
          rcases List.mem_cons.1 hv1 with hv1 | hv1
          · exfalso
            rw [hv1, hd] at hv2
            injection hv2 with hv2
            exact hd0 hv2
          · exact ⟨hv1, hv2⟩

theorem kahn_loop_inv (edges : List (String × List String)) :
    ∀ (fuel : Nat) (indeg : List (String × Int)) (queue out : List String),
    queue.length + kahn_weight indeg < fuel →
    KahnInv edges indeg queue out →
    ∃ res, kahn_loop edges fuel indeg queue out = .ok res ∧
      TopoPrefix edges res ∧ res.Nodup ∧ (∀ x ∈ res, x ∈ edges.map Prod.fst) := by
  intro fuel
  induction fuel with
  | zero => intro indeg queue out hfuel _; omega
  | succ fuel ih =>
    intro indeg queue out hfuel hinv
    obtain ⟨hKnd, hkeys, hondup, hqnd, hdisj, hosub, hqsub, hadj, hindeg, hq0, htopo, hout0⟩ :=
      hinv
    cases queue with
    | nil => exact ⟨out, by simp [kahn_loop], htopo, hondup, hosub⟩
    | cons node qrest =>
      have hnodekeys : node ∈ edges.map Prod.fst := hqsub node (List.mem_cons_self _ _)
      obtain ⟨vs, hvs⟩ := alGet_isSome_of_mem_keys edges node hnodekeys
      obtain ⟨hvsnd, hvssub⟩ := hadj node vs hvs
      have hnode_notout : node ∉ out := fun h => hdisj node h (List.mem_cons_self _ _)
      have hsortnd : (sortStrings vs).Nodup := sortStrings_nodup vs hvsnd
      obtain ⟨indeg', hdec, hkeys', hget'⟩ := kahn_decrement_spec (sortStrings vs) indeg []
        hsortnd (by
          intro v hv
          have hvk : v ∈ edges.map Prod.fst := hvssub v ((mem_sortStrings vs v).1 hv)
          exact ⟨_, hindeg v hvk⟩)
      rw [List.nil_append] at hdec
      set app := (sortStrings vs).filter (fun v => decide (alGet indeg v = some 1)) with happdef
      have happ : ∀ x, x ∈ app ↔ x ∈ vs ∧ inCount edges out x = 1 := by
        intro x
        rw [happdef, List.mem_filter, mem_sortStrings]
        constructor
        · intro ⟨hx1, hx2⟩
          have hx2' : alGet indeg x = some 1 := of_decide_eq_true hx2
          have hxk : x ∈ edges.map Prod.fst := hvssub x hx1
          have := hindeg x hxk
          rw [hx2'] at this
          injection this with hh
          exact ⟨hx1, by exact_mod_cast hh.symm⟩
        · intro ⟨hx1, hx2⟩
          refine ⟨hx1, decide_eq_true ?_⟩
          rw [hindeg x (hvssub x hx1), hx2]
          rfl
      have htrans : ∀ v, inCount edges out v = inCount edges (out ++ [node]) v +
          (if node ∉ out ∧ edgeRel edges node v then 1 else 0) :=
        fun v => inCount_transition v node edges out hKnd
      have hedgev : ∀ v, v ∈ vs → edgeRel edges node v := fun v hv => ⟨vs, hvs, hv⟩
      have hnedgev : ∀ v, v ∉ vs → ¬ edgeRel edges node v := by
        intro v hv he
        obtain ⟨vs2, hvs2, hmem2⟩ := he
        rw [hvs] at hvs2
        injection hvs2 with hh
        exact hv (hh ▸ hmem2)
      have htrans1 : ∀ v ∈ vs, inCount edges out v = inCount edges (out ++ [node]) v + 1 := by
        intro v hv
        have := htrans v
        rwa [if_pos ⟨hnode_notout, hedgev v hv⟩] at this
      have htrans0 : ∀ v, v ∉ vs → inCount edges out v = inCount edges (out ++ [node]) v := by
        intro v hv
        have := htrans v
        rwa [if_neg (fun hc => hnedgev v hv hc.2), Nat.add_zero] at this
      have hqrest0 : ∀ v ∈ qrest, inCount edges out v = 0 :=
        fun v hv => hq0 v (List.mem_cons_of_mem _ hv)
      have hmeasure : (qrest ++ app).length + kahn_weight indeg' < fuel := by
        have hb := kahn_decrement_bound (sortStrings vs) indeg [] app indeg' hdec
        simp only [List.length_nil] at hb
        have hlen : (qrest ++ app).length = qrest.length + app.length := List.length_append _ _
        have hql : (node :: qrest).length = qrest.length + 1 := by simp
        omega
      have hinv' : KahnInv edges indeg' (qrest ++ app) (out ++ [node]) := by
        refine ⟨hKnd, hkeys'.trans hkeys, ?_, ?_, ?_, ?_, ?_, hadj, ?_, ?_, ?_, ?_⟩
        · rw [List.nodup_append]
          exact ⟨hondup, List.nodup_singleton _,
            fun x hx hx2 => hnode_notout ((List.mem_singleton.1 hx2) ▸ hx)⟩
        · rw [List.nodup_append]
          refine ⟨(List.nodup_cons.1 hqnd).2, List.Nodup.filter _ hsortnd, ?_⟩
          intro x hx hx2
          have h1 := hqrest0 x hx
          have h2 := ((happ x).1 hx2).2
          omega
        · intro x hx hx2
          rcases List.mem_append.1 hx with hx | hx
          · rcases List.mem_append.1 hx2 with hx2 | hx2
            · exact hdisj x hx (List.mem_cons_of_mem _ hx2)
            · have h1 := hout0 x hx
              have h2 := ((happ x).1 hx2).2
              omega
          · have hxn := List.mem_singleton.1 hx
            rcases List.mem_append.1 hx2 with hx2 | hx2
            · exact (List.nodup_cons.1 hqnd).1 (hxn ▸ hx2)
            · have h1 := hq0 node (List.mem_cons_self _ _)
              have h2 := ((happ x).1 hx2).2
              rw [hxn] at h2
              omega
        · intro x hx
          rcases List.mem_append.1 hx with hx | hx
          · exact hosub x hx
          · exact (List.mem_singleton.1 hx) ▸ hnodekeys
        · intro x hx
          rcases List.mem_append.1 hx with hx | hx
          · exact hqsub x (List.mem_cons_of_mem _ hx)
          · exact hvssub x ((happ x).1 hx).1
        · intro v hv
          rw [hget' v]
          by_cases hvmem : v ∈ sortStrings vs
          · rw [if_pos hvmem, hindeg v hv]
            have h1 := htrans1 v ((mem_sortStrings vs v).1 hvmem)
            simp only [Option.map_some']
            congr 1
            omega
          · rw [if_neg hvmem, hindeg v hv]
            have h0 := htrans0 v (fun hh => hvmem ((mem_sortStrings vs v).2 hh))
            rw [h0]
        · intro v hv
          rcases List.mem_append.1 hv with hv | hv
          · have h1 := hqrest0 v hv
            have h2 := htrans v
            omega
          · obtain ⟨hv1, hv2⟩ := (happ v).1 hv
            have h1 := htrans1 v hv1
            omega
        · intro u v hrel hv
          rcases List.mem_append.1 hv with hv | hv
          · obtain ⟨hu, hidx⟩ := htopo u v hrel hv
            refine ⟨List.mem_append_left _ hu, ?_⟩
            rw [List.indexOf_append_of_mem hu, List.indexOf_append_of_mem hv]
            exact hidx
          · have hvn := List.mem_singleton.1 hv
            have hu : u ∈ out := inCount_zero_sources edges out v
              (hvn ▸ hq0 node (List.mem_cons_self _ _)) u hrel
            refine ⟨List.mem_append_left _ hu, ?_⟩
            rw [List.indexOf_append_of_mem hu, hvn,
              List.indexOf_append_of_not_mem hnode_notout, List.indexOf_cons_self]
            have := List.indexOf_lt_length.2 hu
            omega
        · intro x hx
          rcases List.mem_append.1 hx with hx | hx
          · have h1 := hout0 x hx
            have h2 := htrans x
            omega
          · have hxn := List.mem_singleton.1 hx
            have h1 := hq0 node (List.mem_cons_self _ _)
            have h2 := htrans node
            rw [hxn]
            omega
      obtain ⟨res, hres, hrestopo, hresnd, hressub⟩ :=
        ih indeg' (qrest ++ app) (out ++ [node]) hmeasure hinv'
      refine ⟨res, ?_, hrestopo, hresnd, hressub⟩
      simp only [kahn_loop, hvs, hdec]
      exact hres

theorem topo_chain_last (edges : List (String × List String)) (res : List String)
    (htopo : TopoPrefix edges res) :
    ∀ (p : List String) (v : String) (hp : p ≠ []),
    List.Chain (edgeRel edges) v p → p.getLast hp ∈ res →
    v ∈ res ∧ res.indexOf v < res.indexOf (p.getLast hp) := by
  intro p
  induction p with
  | nil => intro v hp; exact absurd rfl hp
  | cons w rest ih =>
    intro v hp hchain hlast
    rw [List.chain_cons] at hchain
    obtain ⟨hvw, hchain⟩ := hchain
    rcases rest with _ | ⟨x, xs⟩
    · simp only [List.getLast_singleton] at hlast ⊢
      exact htopo v w hvw hlast
    · have hlast' : (w :: x :: xs).getLast hp = (x :: xs).getLast (by simp) :=
        List.getLast_cons (by simp)
      rw [hlast'] at hlast ⊢
      obtain ⟨hw, hidx⟩ := ih w (by simp) hchain hlast
      obtain ⟨hv, hidx2⟩ := htopo v w hvw hw
      exact ⟨hv, lt_trans hidx2 hidx⟩

theorem cycle_misses_node (edges : List (String × List String)) (res : List String)
    (htopo : TopoPrefix edges res) (hcyc : CycleIn (edgeRel edges)) :
    ∃ x, x ∈ edges.map Prod.fst ∧ x ∉ res := by
  obtain ⟨v, p, hp, hchain', hlast⟩ := hcyc
  have hchain : List.Chain (edgeRel edges) v p := hchain'
  rcases p with _ | ⟨w, ws⟩
  · exact absurd rfl hp
  · have hvw : edgeRel edges v w := (List.chain_cons.1 hchain).1
    obtain ⟨vs0, hvs0, -⟩ := hvw
    have hvkeys : v ∈ edges.map Prod.fst :=
      List.mem_map_of_mem Prod.fst (alGet_some_mem_entry edges v vs0 hvs0)
    refine ⟨v, hvkeys, ?_⟩
    intro hv
    have hlast' : (w :: ws).getLast (by simp) = v := by
      rw [← hlast]
      exact (List.getLast_cons (by simp)).symm
    obtain ⟨-, hidx⟩ := topo_chain_last edges res htopo (w :: ws) v (by simp) hchain
      (hlast' ▸ hv)
    rw [hlast'] at hidx
    exact lt_irrefl _ hidx

theorem topo_cycle_error (g : ComponentGraph)
    (hvg : validate_component_graph g = .ok ())
    (hcyc : CycleIn (codeEdge g)) :
    topological_order_or_cycle g = .error .cycle := by
  obtain ⟨hnodupAll, hroot, hst, hchildren⟩ := validate_component_graph_ok g hvg
  have habiend : (g.abies.map Abie.id).Nodup :=
    (List.Nodup.of_append_left (List.Nodup.of_append_left hnodupAll))
  have hdedup : dedup_first [] (g.abies.map Abie.id) = g.abies.map Abie.id :=
    dedup_first_of_nodup [] _ habiend (by simp)
  have hinv0 : BuildInv (g.abies.map Abie.id)
      ((g.abies.map Abie.id).map (fun n => (n, ([] : List String))),
       (g.abies.map Abie.id).map (fun n => (n, (0 : Int)))) := by
    refine ⟨by simp, by simp, ?_, ?_⟩
    · intro u vs hget
      rw [alGet_keyed_map] at hget
      by_cases hu : u ∈ g.abies.map Abie.id
      · rw [if_pos hu] at hget
        obtain rfl : vs = [] := by
          injection hget with hh
          exact hh.symm
        exact ⟨List.nodup_nil, by simp⟩
      · rw [if_neg hu] at hget
        exact absurd hget (by simp)
    · intro v hv
      rw [alGet_keyed_map, if_pos hv]
      have hz : inCount ((g.abies.map Abie.id).map (fun n => (n, ([] : List String)))) [] v
          = 0 := by
        apply List.countP_eq_zero.2
        intro p hp
        obtain ⟨n, -, rfl⟩ := List.mem_map.1 hp
        simp
      rw [hz]
      rfl
  obtain ⟨st, hbuild, ⟨h1, h2, h3, h4⟩, hcode⟩ :=
    build_edges_abies_spec g.asbies (g.abies.map Abie.id) habiend g.abies _ hinv0
      (fun a ha => List.mem_map_of_mem Abie.id ha)
      (by
        intro a ha c hc
        obtain ⟨s, hdict⟩ := dict_by_id_resolves g.asbies Asbie.id c
          ((hchildren a ha).1 c hc)
        obtain ⟨hsmem, -⟩ := dict_by_id_mem g.asbies Asbie.id c s hdict
        exact ⟨s, hdict, (hst s hsmem).2⟩)
  have hrel_of_code : ∀ u v, codeEdge g u v → edgeRel st.1 u v := by
    intro u v hcd
    obtain ⟨a, ha, haid, sid, hsid, s, hdict, htv⟩ := hcd
    obtain ⟨vs', hvs', hmem⟩ := hcode a ha sid hsid s hdict
    exact ⟨vs', haid ▸ hvs', htv ▸ hmem⟩
  obtain ⟨q0, hq0, hq0sub, hq0mem⟩ := kahn_queue_init_spec st.2 (g.abies.map Abie.id)
    (fun n hn => h2 ▸ hn)
  have hkinv : KahnInv st.1 st.2 (sortStrings q0) [] := by
    refine ⟨h1 ▸ habiend, h2.trans (h1.symm), List.nodup_nil,
      sortStrings_nodup q0 (List.Nodup.sublist hq0sub habiend), by simp, by simp,
      ?_, ?_, ?_, ?_, ?_, by simp⟩
    · intro x hx
      rw [h1]
      exact ((hq0mem x).1 ((mem_sortStrings q0 x).1 hx)).1
    · intro u vs hget
      obtain ⟨hnd, hsub⟩ := h3 u vs hget
      exact ⟨hnd, fun v hv => h1 ▸ hsub v hv⟩
    · intro v hv
      exact h4 v (h1 ▸ hv)
    · intro v hv
      have hv0 : alGet st.2 v = some 0 := ((hq0mem v).1 ((mem_sortStrings q0 v).1 hv)).2
      have hvk : v ∈ g.abies.map Abie.id := ((hq0mem v).1 ((mem_sortStrings q0 v).1 hv)).1
      have := h4 v hvk
      rw [hv0] at this
      injection this with hh
      exact_mod_cast hh.symm
    · intro u v _ hv
      exact absurd hv (by simp)
  obtain ⟨res, hloop, hrtopo, hrnd, hrsub⟩ := kahn_loop_inv st.1
    ((sortStrings q0).length + kahn_weight st.2 + 1) st.2 (sortStrings q0) []
    (by omega) hkinv
  obtain ⟨x, hxkeys, hxres⟩ := cycle_misses_node st.1 res hrtopo (by
    obtain ⟨v, p, hp, hchain, hlast⟩ := hcyc
    exact ⟨v, p, hp, List.Chain'.imp (fun a b hab => hrel_of_code a b hab) hchain, hlast⟩)
  have hxabie : x ∈ g.abies.map Abie.id := h1 ▸ hxkeys
  have hlen : res.length < (g.abies.map Abie.id).length := by
    have hc1 : res.toFinset.card = res.length := List.toFinset_card_of_nodup hrnd
    have hc2 : (g.abies.map Abie.id).toFinset.card = (g.abies.map Abie.id).length :=
      List.toFinset_card_of_nodup habiend
    have hss : res.toFinset ⊂ (g.abies.map Abie.id).toFinset := by
      constructor
      · intro y hy
        rw [List.mem_toFinset] at hy ⊢
        exact h1 ▸ hrsub y hy
      · intro hsup
        exact hxres (List.mem_toFinset.1 (hsup (List.mem_toFinset.2 hxabie)))
    have := Finset.card_lt_card hss
    omega
  have hne : res.length ≠ (g.abies.map Abie.id).length := Nat.ne_of_lt hlen
  simp only [topological_order_or_cycle, hdedup, Bind.bind, Except.bind]
  rw [hbuild]
  dsimp only
  rw [hq0]
  dsimp only
  rw [hloop]
  dsimp only
  rw [if_pos hne]

/-- C1 (amended): for every valid component graph whose childrenASBIE-listing
edge relation (`A -> B` iff some ASBIE id listed in ABIE A entry childrenASBIE
resolves to an ASBIE with `targetABIE = B`) contains a cycle, and for every
prefiltered input (resp. OC payload and valid IUC), `run_step2_oc_safe` returns
exactly the `Step2 / OC_non_convergent_cycle` envelope with `stage=cycle`, and
`run_step3_ec_safe` the analogous `Step3 / EC_non_convergent_cycle` envelope. -/
theorem claim_C1 (prefiltered : List CompTuples) (g : ComponentGraph) (t : Taxonomy)
    (oc : BucketMaps) (iuc : Iuc)
    (hvt : validate_taxonomy t = .ok ())
    (hvg : validate_component_graph g = .ok ())
    (hvi : validate_iucs [iuc] t = .ok ())
    (hcyc : CycleIn (codeEdge g)) :
    run_step2_oc_safe prefiltered g t =
      .ok (.inl ⟨"Step2", "OC_non_convergent_cycle", [("stage", "cycle")]⟩) ∧
    run_step3_ec_safe oc g t iuc =
      .ok (.inl ⟨"Step3", "EC_non_convergent_cycle", [("stage", "cycle")]⟩) := by
  have htopo := topo_cycle_error g hvg hcyc
  constructor
  · have hrun : run_step2_oc prefiltered g t = .error .cycle := by
      simp only [run_step2_oc, bind, Except.bind]
      rw [hvt]
      dsimp only
      rw [hvg]
      dsimp only
      rw [htopo]
    simp only [run_step2_oc_safe]
    rw [hrun]
    dsimp only
    rw [build_error_envelope_ok _ _ _ (by decide) (by decide)]
    rfl
  · have hrun : run_step3_ec oc g t iuc = .error .cycle := by
      simp only [run_step3_ec, bind, Except.bind]
      rw [hvt]
      dsimp only
      rw [hvg]
      dsimp only
      rw [hvi]
      dsimp only
      rw [htopo]
    simp only [run_step3_ec_safe]
    rw [hrun]
    dsimp only
    rw [build_error_envelope_ok _ _ _ (by decide) (by decide)]
    rfl

/-- C1 counterexample: `g1` is a valid component graph whose ASBIE
`sourceABIE`/`targetABIE` edge relation (the spec wording) has the cycle
`A -> B -> A`, yet `run_step2_oc_safe` returns a normal OC payload instead of
the cycle envelope, because the code builds edges from the childrenASBIE
listings only (ABIE `B` does not list `Y`). -/
theorem claim_C1_counterexample :
    CycleIn (specSourceEdge g1) ∧
    validate_taxonomy scenA_tax = .ok () ∧
    validate_component_graph g1 = .ok () ∧
    run_step2_oc_safe [] g1 scenA_tax =
      .ok (.inr { ABIE := [("A", []), ("B", [])], ASBIE := [("X", []), ("Y", [])]
                  BBIE := [] }) := by
  refine ⟨⟨"A", ["B", "A"], by decide, ?_, by decide⟩, by decide, by decide, by decide⟩
  refine List.Chain.cons ⟨⟨"X", "A", "B"⟩, by decide, rfl, rfl⟩ ?_
  exact List.Chain.cons ⟨⟨"Y", "B", "A"⟩, by decide, rfl, rfl⟩ List.Chain.nil

theorem claim_C1_witness :
    (validate_taxonomy scenA_tax = .ok () ∧
     validate_component_graph c1g = .ok () ∧
     validate_iucs [⟨"I", [[("Region", "Region.US")]]⟩] scenA_tax = .ok () ∧
     CycleIn (codeEdge c1g)) ∧
    run_step2_oc_safe [] c1g scenA_tax =
      .ok (.inl ⟨"Step2", "OC_non_convergent_cycle", [("stage", "cycle")]⟩) ∧
    run_step3_ec_safe ⟨[], [], []⟩ c1g scenA_tax ⟨"I", [[("Region", "Region.US")]]⟩ =
      .ok (.inl ⟨"Step3", "EC_non_convergent_cycle", [("stage", "cycle")]⟩) := by
  have hcyc : CycleIn (codeEdge c1g) := by
    refine ⟨"CA", ["CB", "CA"], by decide, ?_, by decide⟩
    refine List.Chain.cons
      ⟨⟨"CA", [], ["CX"]⟩, by decide, rfl, "CX", by decide,
        ⟨"CX", "CA", "CB"⟩, by decide, rfl⟩ ?_
    exact List.Chain.cons
      ⟨⟨"CB", [], ["CY"]⟩, by decide, rfl, "CY", by decide,
        ⟨"CY", "CB", "CA"⟩, by decide, rfl⟩ List.Chain.nil
  exact ⟨⟨by decide, by decide, by decide, hcyc⟩,
    claim_C1 [] c1g scenA_tax ⟨[], [], []⟩ ⟨"I", [[("Region", "Region.US")]]⟩
      (by decide) (by decide) (by decide) hcyc⟩

theorem py_map_ok {α β : Type} {f : α → β} {x : Py α} {y : β}
    (h : (f <$> x) = .ok y) : ∃ v, x = .ok v ∧ f v = y := by
  cases x with
  | ok v =>
    refine ⟨v, rfl, ?_⟩
    simpa [Functor.map, Except.map] using h
  | error e => simp [Functor.map, Except.map] at h

theorem build_error_envelope_ok_inv (err reason : String) (details : Tup) (env : Envelope)
    (h : build_error_envelope err reason details = .ok env) :
    env.error ∈ allowedErrors ∧ env.reason ≠ "" := by
  unfold build_error_envelope at h
  obtain ⟨⟨⟩, h1, h⟩ := py_bind_ok h
  obtain ⟨⟨⟩, h2, h⟩ := py_bind_ok h
  have he := ensure_ok h1
  have hr := ensure_ok h2
  simp only [pure, Except.pure] at h
  injection h with hh
  obtain rfl := hh
  exact ⟨he, hr⟩

theorem step1_safe_envelope_wf (assignments : List CompTuples) (p : Policy) (t : Taxonomy)
    (env : Envelope)
    (h : run_step1_prefilter_safe assignments p t = .ok (.inl env)) :
    env.error ∈ allowedErrors ∧ env.reason ≠ "" := by
  unfold run_step1_prefilter_safe at h
  cases hrun : run_step1_prefilter assignments p t with
  | ok v =>
    rw [hrun] at h
    exact absurd h (by simp)
  | error e =>
    rw [hrun] at h
    cases e with
    | validation m =>
      obtain ⟨env', hx, hy⟩ := py_map_ok h
      injection hy with hy
      exact hy ▸ build_error_envelope_ok_inv _ _ _ _ hx
    | keyError k =>
      obtain ⟨env', hx, hy⟩ := py_map_ok h
      injection hy with hy
      exact hy ▸ build_error_envelope_ok_inv _ _ _ _ hx
    | cycle =>
      obtain ⟨env', hx, hy⟩ := py_map_ok h
      injection hy with hy
      exact hy ▸ build_error_envelope_ok_inv _ _ _ _ hx

theorem step2_safe_envelope_wf (prefiltered : List CompTuples) (g : ComponentGraph)
    (t : Taxonomy) (env : Envelope)
    (h : run_step2_oc_safe prefiltered g t = .ok (.inl env)) :
    env.error ∈ allowedErrors ∧ env.reason ≠ "" := by
  unfold run_step2_oc_safe at h
  cases hrun : run_step2_oc prefiltered g t with
  | ok v =>
    rw [hrun] at h
    exact absurd h (by simp)
  | error e =>
    rw [hrun] at h
    cases e with
    | validation m =>
      obtain ⟨env', hx, hy⟩ := py_map_ok h
      injection hy with hy
      exact hy ▸ build_error_envelope_ok_inv _ _ _ _ hx
    | keyError k =>
      obtain ⟨env', hx, hy⟩ := py_map_ok h
      injection hy with hy
      exact hy ▸ build_error_envelope_ok_inv _ _ _ _ hx
    | cycle =>
      obtain ⟨env', hx, hy⟩ := py_map_ok h
      injection hy with hy
      exact hy ▸ build_error_envelope_ok_inv _ _ _ _ hx

theorem step3_safe_envelope_wf (oc : BucketMaps) (g : ComponentGraph) (t : Taxonomy)
    (iuc : Iuc) (env : Envelope)
    (h : run_step3_ec_safe oc g t iuc = .ok (.inl env)) :
    env.error ∈ allowedErrors ∧ env.reason ≠ "" := by
  unfold run_step3_ec_safe at h
  cases hrun : run_step3_ec oc g t iuc with
  | ok v =>
    rw [hrun] at h
    exact absurd h (by simp)
  | error e =>
    rw [hrun] at h
    cases e with
    | validation m =>
      obtain ⟨env', hx, hy⟩ := py_map_ok h
      injection hy with hy
      exact hy ▸ build_error_envelope_ok_inv _ _ _ _ hx
    | keyError k =>
      obtain ⟨env', hx, hy⟩ := py_map_ok h
      injection hy with hy
      exact hy ▸ build_error_envelope_ok_inv _ _ _ _ hx
    | cycle =>
      obtain ⟨env', hx, hy⟩ := py_map_ok h
      injection hy with hy
      exact hy ▸ build_error_envelope_ok_inv _ _ _ _ hx

theorem validate_ec_inputs_envelope_wf (b : EcBundle) (iucs : List Iuc) (env : Envelope)
    (h : validate_ec_inputs b iucs = .ok (some env)) :
    env.error ∈ allowedErrors ∧ env.reason ≠ "" := by
  unfold validate_ec_inputs at h
  cases h1 : validate_taxonomy b.taxonomy with
  | error e =>
    rw [h1] at h
    cases e with
    | validation m =>
      obtain ⟨env', hx, hy⟩ := py_map_ok h
      injection hy with hy
      exact hy ▸ build_error_envelope_ok_inv _ _ _ _ hx
    | keyError k => exact absurd h (by simp)
    | cycle => exact absurd h (by simp)
  | ok u =>
    rw [h1] at h
    dsimp only at h
    cases h2 : validate_policy b.policy b.taxonomy with
    | error e =>
      rw [h2] at h
      cases e with
      | validation m =>
        obtain ⟨env', hx, hy⟩ := py_map_ok h
        injection hy with hy
        exact hy ▸ build_error_envelope_ok_inv _ _ _ _ hx
      | keyError k => exact absurd h (by simp)
      | cycle => exact absurd h (by simp)
    | ok u2 =>
      rw [h2] at h
      dsimp only at h
      cases h3 : validate_component_graph b.componentGraph with
      | error e =>
        rw [h3] at h
        cases e with
        | validation m =>
          obtain ⟨env', hx, hy⟩ := py_map_ok h
          injection hy with hy
          exact hy ▸ build_error_envelope_ok_inv _ _ _ _ hx
        | keyError k => exact absurd h (by simp)
        | cycle => exact absurd h (by simp)
      | ok u3 =>
        rw [h3] at h
        dsimp only at h
        cases h4 : validate_assignments b.assignedBusinessContext b.taxonomy
            b.componentGraph with
        | error e =>
          rw [h4] at h
          cases e with
          | validation m =>
            obtain ⟨env', hx, hy⟩ := py_map_ok h
            injection hy with hy
            exact hy ▸ build_error_envelope_ok_inv _ _ _ _ hx
          | keyError k => exact absurd h (by simp)
          | cycle => exact absurd h (by simp)
        | ok u4 =>
          rw [h4] at h
          dsimp only at h
          cases h5 : validate_iucs iucs b.taxonomy with
          | error e =>
            rw [h5] at h
            cases e with
            | validation m =>
              obtain ⟨env', hx, hy⟩ := py_map_ok h
              injection hy with hy
              exact hy ▸ build_error_envelope_ok_inv _ _ _ _ hx
            | keyError k => exact absurd h (by simp)
            | cycle => exact absurd h (by simp)
          | ok u5 =>
            rw [h5] at h
            exact absurd h (by simp)

theorem ec_iuc_loop_envelope_wf (t : Taxonomy) (g : ComponentGraph) (oc : BucketMaps) :
    ∀ (iucs : List Iuc) (artifacts : List (String × EcArtifact)) (env : Envelope),
    ec_iuc_loop t g oc artifacts iucs = .ok (.inl env) →
    env.error ∈ allowedErrors ∧ env.reason ≠ "" := by
  intro iucs
  induction iucs with
  | nil =>
    intro artifacts env h
    exact absurd h (by simp [ec_iuc_loop])
  | cons iuc rest ih =>
    intro artifacts env h
    obtain ⟨s3, h3, hrest⟩ := py_bind_ok (by
      simpa only [ec_iuc_loop, Bind.bind] using h)
    cases s3 with
    | inl env2 =>
      obtain rfl : env2 = env := by
        dsimp only at hrest
        injection hrest with hh
        injection hh
      exact step3_safe_envelope_wf oc g t iuc _ h3
    | inr ec =>
      dsimp only at hrest
      cases h4 : run_step4_profile_schema ec g iuc with
      | error e =>
        rw [h4] at hrest
        dsimp only at hrest
        obtain ⟨env', hx, hy⟩ := py_map_ok hrest
        have hy' : Sum.inl env' = (Sum.inl env : Envelope ⊕ List (String × EcArtifact)) := hy
        injection hy' with hh
        exact hh ▸ build_error_envelope_ok_inv _ _ _ _ hx
      | ok schema =>
        rw [h4] at hrest
        dsimp only at hrest
        exact ih _ env hrest

theorem mapping_pairs_loop_envelope_wf (profiles : List (String × Profile))
    (catalog : List (String × CatEntry)) (paths : SchemaPaths) :
    ∀ (pairs : List ProfilePair) (artifacts : List (String × MappingArtifact))
      (env : Envelope),
    mapping_pairs_loop profiles catalog paths artifacts pairs = .ok (.inl env) →
    env.error ∈ allowedErrors ∧ env.reason ≠ "" := by
  intro pairs
  induction pairs with
  | nil =>
    intro artifacts env h
    exact absurd h (by simp [mapping_pairs_loop])
  | cons pair rest ih =>
    intro artifacts env h
    unfold mapping_pairs_loop at h
    cases hs : alGet profiles pair.sourceProfileId with
    | some sp =>
      cases ht : alGet profiles pair.targetProfileId with
      | some tp =>
        rw [hs, ht] at h
        dsimp only at h
        exact ih _ env h
      | none =>
        rw [hs, ht] at h
        dsimp only at h
        obtain ⟨env', hx, hy⟩ := py_map_ok h
        have hy' : Sum.inl env' = (Sum.inl env : Envelope ⊕ List (String × MappingArtifact)) :=
          hy
        injection hy' with hh
        exact hh ▸ build_error_envelope_ok_inv _ _ _ _ hx
    | none =>
      rw [hs] at h
      dsimp only at h
      obtain ⟨env', hx, hy⟩ := py_map_ok h
      have hy' : Sum.inl env' = (Sum.inl env : Envelope ⊕ List (String × MappingArtifact)) :=
        hy
      injection hy' with hh
      exact hh ▸ build_error_envelope_ok_inv _ _ _ _ hx

/-- C8: every failure value returned by the three safe step wrappers and the two
pipelines is an `Envelope` (a dict with exactly the keys `error`, `reason`,
`details`, which the `Envelope` structure embeds by construction) whose `error`
is drawn from the closed set `allowedErrors` and whose `reason` is non-empty;
and `build_error_envelope` rejects every `error` value outside that set. -/
theorem claim_C8 :
    (∀ (assignments : List CompTuples) (p : Policy) (t : Taxonomy) (env : Envelope),
      run_step1_prefilter_safe assignments p t = .ok (.inl env) →
      env.error ∈ allowedErrors ∧ env.reason ≠ "") ∧
    (∀ (prefiltered : List CompTuples) (g : ComponentGraph) (t : Taxonomy) (env : Envelope),
      run_step2_oc_safe prefiltered g t = .ok (.inl env) →
      env.error ∈ allowedErrors ∧ env.reason ≠ "") ∧
    (∀ (oc : BucketMaps) (g : ComponentGraph) (t : Taxonomy) (iuc : Iuc) (env : Envelope),
      run_step3_ec_safe oc g t iuc = .ok (.inl env) →
      env.error ∈ allowedErrors ∧ env.reason ≠ "") ∧
    (∀ (b : EcBundle) (iucs : List Iuc) (env : Envelope),
      run_ec_pipeline b iucs = .ok (.inl env) →
      env.error ∈ allowedErrors ∧ env.reason ≠ "") ∧
    (∀ (profiles : List (String × Profile)) (cfg0 : MappingConfig) (env : Envelope),
      run_mapping_pipeline profiles cfg0 = .ok (.inl env) →
      env.error ∈ allowedErrors ∧ env.reason ≠ "") ∧
    (∀ (err reason : String) (details : Tup), err ∉ allowedErrors →
      build_error_envelope err reason details = .error (.validation "error type is not allowed")) := by
  refine ⟨step1_safe_envelope_wf, step2_safe_envelope_wf, step3_safe_envelope_wf,
    ?_, ?_, ?_⟩
  · intro b iucs env h
    obtain ⟨venv, hv, hrest⟩ := py_bind_ok (by
      simpa only [run_ec_pipeline, Bind.bind] using h)
    cases venv with
    | some env2 =>
      obtain rfl : env2 = env := by
        dsimp only at hrest
        injection hrest with hh
        injection hh
      exact validate_ec_inputs_envelope_wf b iucs _ hv
    | none =>
      dsimp only at hrest
      obtain ⟨s1, h1, hrest⟩ := py_bind_ok hrest
      cases s1 with
      | inl env2 =>
        obtain rfl : env2 = env := by
          dsimp only at hrest
          injection hrest with hh
          injection hh
        exact step1_safe_envelope_wf _ _ _ _ h1
      | inr step1 =>
        dsimp only at hrest
        obtain ⟨s2, h2, hrest⟩ := py_bind_ok hrest
        cases s2 with
        | inl env2 =>
          obtain rfl : env2 = env := by
            dsimp only at hrest
            injection hrest with hh
            injection hh
          exact step2_safe_envelope_wf _ _ _ _ h2
        | inr oc =>
          dsimp only at hrest
          obtain ⟨r, hr, hrest⟩ := py_bind_ok hrest
          cases r with
          | inl env2 =>
            obtain rfl : env2 = env := by
              dsimp only at hrest
              injection hrest with hh
              injection hh
            exact ec_iuc_loop_envelope_wf b.taxonomy b.componentGraph oc iucs _ _ hr
          | inr arts =>
            dsimp only at hrest
            exact absurd hrest (by simp)
  · intro profiles cfg0 env h
    unfold run_mapping_pipeline at h
    cases hv : validate_mapping_config cfg0 with
    | error e =>
      rw [hv] at h
      dsimp only at h
      obtain ⟨env', hx, hy⟩ := py_map_ok h
      have hy' : Sum.inl env' = (Sum.inl env : Envelope ⊕ MappingOut) := hy
      injection hy' with hh
      exact hh ▸ build_error_envelope_ok_inv _ _ _ _ hx
    | ok u =>
      rw [hv] at h
      dsimp only at h
      cases hm : mapping_pairs_loop profiles (normalize_mapping_config cfg0).bie_catalog
          (normalize_mapping_config cfg0).schemaPaths [] (normalize_mapping_config cfg0).profilePairs with
      | error e =>
        rw [hm] at h
        exact absurd h (by simp)
      | ok s =>
        rw [hm] at h
        cases s with
        | inl env2 =>
          obtain rfl : env2 = env := by
            dsimp only at h
            injection h with hh
            injection hh
          exact mapping_pairs_loop_envelope_wf profiles _ _ _ _ _ hm
        | inr arts =>
          dsimp only at h
          exact absurd h (by simp)
  · intro err reason details hne
    simp only [build_error_envelope, ensure, if_neg hne, Bind.bind, Except.bind]

theorem claim_C8_witness :
    run_step3_ec_safe oc9 g9 scenA_tax ⟨"I", [[("Channel", "Channel.B2B")]]⟩ =
      .ok (.inl ⟨"Step3", "missing required field: Region", [("stage", "runtime")]⟩) ∧
    ((⟨"Step3", "missing required field: Region", [("stage", "runtime")]⟩ :
        Envelope).error ∈ allowedErrors ∧
      (⟨"Step3", "missing required field: Region", [("stage", "runtime")]⟩ :
        Envelope).reason ≠ "") ∧
    "Nope" ∉ allowedErrors ∧
    build_error_envelope "Nope" "some reason" [] =
      .error (.validation "error type is not allowed") := by
  refine ⟨by decide, ?_, by decide, ?_⟩
  · exact claim_C8.2.2.1 oc9 g9 scenA_tax ⟨"I", [[("Channel", "Channel.B2B")]]⟩
      ⟨"Step3", "missing required field: Region", [("stage", "runtime")]⟩ (by decide)
  · exact claim_C8.2.2.2.2.2 "Nope" "some reason" [] (by decide)

end AirEcmap
